import Mathlib

/-! # Verification of the stream-go activity encode/decode layer

This file is a shallow embedding, in Lean 4, of `activity.go` from the
Fatsoma/stream-go repository: the custom JSON marshalling and unmarshalling
of the `Activity` record, the dual-shape parsing of the `to` field, and the
`slug:id[ token]` feed-reference grammar.

The embedding works at the level of parsed JSON values (the inductive `Json`
below); the byte/text layer of `encoding/json` is elided, but the documented
semantics of `json.Unmarshal` at the value level are reproduced faithfully,
including its quirks:

* unmarshalling JSON `null` into a map or slice is a no-op that produces no
  error;
* unmarshalling an array with elements of the wrong type fills the
  well-typed elements, zeroes the ill-typed ones, and returns an error
  ("Unmarshal ... completes the unmarshaling as best it can");
* unmarshalling a non-string JSON value into a `string` leaves the zero
  value `""`.

Go's `time.Time` is modelled as a plain calendar tuple (`GoTime`); the
layout string `"2006-01-02T15:04:05.999999"` carries no zone information, so
locations are elided.  `time.Format` and `time.Parse` for this fixed layout
are implemented character by character following the Go standard library
(fixed-width numeric fields, optional fractional seconds with trailing-zero
trimming on format and free length on parse, and the final range
validation).  Go's `strings.ToLower` is modelled on its ASCII fragment,
which covers every recognized field name.
-/

/-- JSON values, as produced by a successful top-level parse.  Numbers are
modelled as integers; no claim depends on numeric representation. -/
inductive Json where
  | null : Json
  | bool : Bool → Json
  | num : Int → Json
  | str : String → Json
  | arr : List Json → Json
  | obj : List (String × Json) → Json

/-- Test for the JSON `null` literal, mirroring the `value == nil` check on
a `*payload` (unmarshalling a JSON `null` into a pointer sets it to `nil`). -/
def Json.isNull : Json → Bool
  | Json.null => true
  | _ => false

/-- Test for a JSON object, used to express "the input parses as a JSON
object" at the value level. -/
def Json.isObj : Json → Bool
  | Json.obj _ => true
  | _ => false

/-- Modelled from the spec: `FeedID` is defined outside `activity.go`; per
§6 it is "an opaque string identifier with a `.Value()` accessor". -/
structure FeedID where
  value : String
deriving DecidableEq, Repr

/-- Accessor `FeedID.Value()`, modelled from the spec. -/
def FeedID.Value (i : FeedID) : String := i.value

/-- Modelled from the spec: `GeneralFeed` is defined outside `activity.go`;
it is the only concrete `Feed` used by the decoder, holding the fields
`FeedSlug`, `UserID` and `token` that `matchFeed`/`matchFeedWithToken`
populate.  The `Feed` interface (§6: `FeedID()` and `Token()` accessors) is
modelled by this single concrete variant. -/
structure GeneralFeed where
  FeedSlug : String
  UserID : String
  token : String
deriving DecidableEq, Repr

/-- Modelled from the spec: a feed reference renders as `"slug:id"`
(§3/§4.1 — "render each FeedReference as `"<slug>:<userID>"`"). -/
def GeneralFeed.FeedID (f : GeneralFeed) : FeedID :=
  ⟨f.FeedSlug ++ ":" ++ f.UserID⟩

/-- Modelled from the spec: the `Token()` accessor of the `Feed`
capability returns the held access token. -/
def GeneralFeed.Token (f : GeneralFeed) : String := f.token

/-- Go calendar time, as far as the fixed layout
`"2006-01-02T15:04:05.999999"` can express it: no location (the layout has
no zone field), nanosecond resolution. -/
structure GoTime where
  year : Nat
  month : Nat
  day : Nat
  hour : Nat
  minute : Nat
  second : Nat
  nanos : Nat
deriving DecidableEq, Repr

/-- The `Activity` struct of `activity.go`.  Pointers and maps that Go
distinguishes from their zero values are modelled with `Option`
(`TimeStamp *time.Time`, `Data *json.RawMessage`, and the nil/non-nil
distinction of the `MetaData` map).  `To []Feed` is modelled as a list of
the single concrete feed variant. -/
structure Activity where
  ID : String
  Actor : String
  Verb : String
  Object : String
  Target : String
  Origin : FeedID
  TimeStamp : Option GoTime
  ForeignID : String
  Data : Option Json
  MetaData : Option (List (String × Json))
  To : List GeneralFeed

/-- The zero `Activity`, as produced by `&Activity{}` before
`json.Unmarshal` runs. -/
def emptyActivity : Activity :=
  { ID := "", Actor := "", Verb := "", Object := "", Target := ""
    Origin := ⟨""⟩, TimeStamp := none, ForeignID := "", Data := none
    MetaData := none, To := [] }

/-! ## Character helpers -/

/-- RE2's `\w` character class: `[0-9A-Za-z_]` (ASCII, the default in Go's
`regexp`). -/
def isWordChar (c : Char) : Bool :=
  c.isAlpha || c.isDigit || c == '_'

/-- ASCII decimal digit test, Go's `isDigit` in `time/format.go`. -/
def isDigitChar (c : Char) : Bool :=
  '0' ≤ c && c ≤ '9'

/-- Decimal digit to character, for the fixed-width numeric fields of
`time.Format`.  Only arguments below 10 arise (field values of a valid
`time.Time` component divided down to single digits). -/
def digitToChar : Nat → Char
  | 0 => '0' | 1 => '1' | 2 => '2' | 3 => '3' | 4 => '4'
  | 5 => '5' | 6 => '6' | 7 => '7' | 8 => '8' | 9 => '9'
  | _ => '*'

/-- Character to decimal digit, Go's `c - '0'`. -/
def charToDigit (c : Char) : Nat := c.toNat - 48

/-- Go's `strings.ToLower`, restricted to its ASCII fragment (every
recognized field name is ASCII). -/
def lowerChar (c : Char) : Char :=
  if 'A' ≤ c && c ≤ 'Z' then Char.ofNat (c.toNat + 32) else c

/-- `strings.ToLower` on a whole string (ASCII fragment). -/
def stringToLower (s : String) : String :=
  String.mk (s.toList.map lowerChar)

/-! ## Association-list model of Go maps

`map[string]interface{}` assignment `m[k] = v` overwrites an existing
binding and otherwise adds one; iteration order over the model is list
order (Go's map iteration order is unspecified; every theorem below that
quantifies over decoded objects is insensitive to it under its stated
hypotheses). -/

/-- Map assignment `m[k] = v`: replace an existing binding for `k`, else
append a new one. -/
def mapInsert (m : List (String × Json)) (k : String) (v : Json) :
    List (String × Json) :=
  if m.any (fun p => p.1 == k) then
    m.map (fun p => if p.1 == k then (k, v) else p)
  else
    m ++ [(k, v)]

/-- Map lookup `m[k]`, first binding wins (bindings are unique whenever the
list models an actual Go map). -/
def mapLookup (m : List (String × Json)) (k : String) : Option Json :=
  match m.find? (fun p => p.1 == k) with
  | some p => some p.2
  | none => none

/-! ## The fixed time layout `"2006-01-02T15:04:05.999999"` -/

/-- The layout constant of `activity.go`. -/
def layout : String := "2006-01-02T15:04:05.999999"

/-- Two-digit zero-padded field of `time.Format` (`"01"`, `"02"`, `"15"`,
`"04"`, `"05"`); component values are below 100 for any real `time.Time`. -/
def pad2 (n : Nat) : List Char :=
  [digitToChar (n / 10), digitToChar (n % 10)]

/-- Four-digit zero-padded year field (`"2006"`); years of a formatted
`time.Time` relevant here lie in 0..9999. -/
def pad4 (n : Nat) : List Char :=
  [digitToChar (n / 1000), digitToChar (n / 100 % 10),
   digitToChar (n / 10 % 10), digitToChar (n % 10)]

/-- Six decimal digits of the microsecond count, before trailing-zero
trimming. -/
def pad6 (n : Nat) : List Char :=
  [digitToChar (n / 100000), digitToChar (n / 10000 % 10),
   digitToChar (n / 1000 % 10), digitToChar (n / 100 % 10),
   digitToChar (n / 10 % 10), digitToChar (n % 10)]

/-- Fractional-second field for layout `".999999"`: microseconds (the
nanosecond count truncated), trailing zeros removed, the whole field
(including the period) dropped when zero — Go's `formatNano` with
`trim = true`. -/
def frac6 (nanos : Nat) : List Char :=
  let micro := nanos / 1000
  if micro == 0 then []
  else '.' :: (pad6 micro).rdropWhile (fun c => c == '0')

/-- `time.Format` with the fixed layout, at character-list level. -/
def formatChars (t : GoTime) : List Char :=
  pad4 t.year ++ ('-' :: (pad2 t.month ++ ('-' :: (pad2 t.day ++
    ('T' :: (pad2 t.hour ++ (':' :: (pad2 t.minute ++ (':' :: (pad2 t.second ++
    frac6 t.nanos))))))))))

/-- `time.Format` with the fixed layout. -/
def formatGoTime (t : GoTime) : String := String.mk (formatChars t)

/-- Go's `getnum` with `fixed = true`: exactly two digits. -/
def getnum2 : List Char → Option (Nat × List Char)
  | a :: b :: r =>
    if isDigitChar a && isDigitChar b then
      some (10 * charToDigit a + charToDigit b, r)
    else none
  | _ => none

/-- Go's `getnum` with `fixed = false` (used for the `"15"` hour field on
parse): one digit, or two when the second character is also a digit. -/
def getnumFlex : List Char → Option (Nat × List Char)
  | [] => none
  | [a] => if isDigitChar a then some (charToDigit a, []) else none
  | a :: b :: r =>
    if isDigitChar a then
      if isDigitChar b then some (10 * charToDigit a + charToDigit b, r)
      else some (charToDigit a, b :: r)
    else none

/-- The four-digit year field of `stdLongYear` on parse. -/
def getnum4 : List Char → Option (Nat × List Char)
  | a :: b :: c :: d :: r =>
    if isDigitChar a && isDigitChar b && isDigitChar c && isDigitChar d then
      some (1000 * charToDigit a + 100 * charToDigit b +
            10 * charToDigit c + charToDigit d, r)
    else none
  | _ => none

/-- Numeric value of a list of decimal digit characters (Go's `atoi` on an
all-digit string). -/
def digitsVal (l : List Char) : Nat :=
  l.foldl (fun acc c => 10 * acc + charToDigit c) 0

/-- Days in a month, Go's `daysIn`, with the Gregorian leap rule. -/
def daysIn (month year : Nat) : Nat :=
  if month == 2 then
    if year % 4 == 0 && (year % 100 != 0 || year % 400 == 0) then 29 else 28
  else if month == 4 || month == 6 || month == 9 || month == 11 then 30
  else 31

/-- Fractional-second field on parse (`stdFracSecond9` with a trimmed
layout): optional; when present it is a period or comma followed by at
least one digit; all digits are consumed, the first nine determine the
nanosecond count scaled to nine places. -/
def parseFrac (l : List Char) : Option (Nat × List Char) :=
  match l with
  | [] => some (0, [])
  | c :: d :: rest =>
    if (c == '.' || c == ',') && isDigitChar d then
      let digits := (d :: rest).takeWhile isDigitChar
      let after := (d :: rest).dropWhile isDigitChar
      let ds9 := digits.take 9
      some (digitsVal ds9 * 10 ^ (9 - min digits.length 9), after)
    else none
  | _ => none

/-- `time.Parse` with the fixed layout, at character-list level: the six
numeric fields separated by the literal characters of the layout, an
optional fractional second, no trailing text, and the final range
validation of `Parse`. -/
def parseLayoutChars (l : List Char) : Option GoTime :=
  match getnum4 l with
  | none => none
  | some (year, r1) =>
  match r1 with
  | '-' :: r2 =>
    match getnum2 r2 with
    | none => none
    | some (month, r3) =>
    match r3 with
    | '-' :: r4 =>
      match getnum2 r4 with
      | none => none
      | some (day, r5) =>
      match r5 with
      | 'T' :: r6 =>
        match getnumFlex r6 with
        | none => none
        | some (hour, r7) =>
        match r7 with
        | ':' :: r8 =>
          match getnum2 r8 with
          | none => none
          | some (minute, r9) =>
          match r9 with
          | ':' :: r10 =>
            match getnum2 r10 with
            | none => none
            | some (second, r11) =>
            match parseFrac r11 with
            | none => none
            | some (nanos, r12) =>
              if r12.isEmpty &&
                 decide (1 ≤ month) && decide (month ≤ 12) &&
                 decide (1 ≤ day) && decide (day ≤ daysIn month year) &&
                 decide (hour ≤ 23) && decide (minute ≤ 59) &&
                 decide (second ≤ 59) then
                some ⟨year, month, day, hour, minute, second, nanos⟩
              else none
          | _ => none
        | _ => none
      | _ => none
    | _ => none
  | _ => none

/-- `time.Parse(layout, s)` as used by `payload.TimeStamp`. -/
def parseLayout (s : String) : Option GoTime := parseLayoutChars s.toList

/-! ## The `payload` helper methods -/

/-- `payload.String()`: unmarshal the raw value as a string; any
unmarshalling error leaves the zero value `""`. -/
def payloadString : Json → String
  | Json.str s => s
  | _ => ""

/-- `payload.TimeStamp()`: unmarshal as a string, then `time.Parse` with
the fixed layout; either failure yields `nil`. -/
def payloadTimeStamp : Json → Option GoTime
  | Json.str s => parseLayout s
  | _ => none

/-- Element-wise unmarshal of a JSON value into a `string` slot:
ill-typed elements (and `null`, a no-op) leave the zero value `""`. -/
def jsonElemStr : Json → String
  | Json.str s => s
  | _ => ""

/-- Whether a JSON value unmarshals into a `string` slot without a type
error (`null` is an error-free no-op). -/
def isStrOrNull : Json → Bool
  | Json.str _ => true
  | Json.null => true
  | _ => false

/-- One element of the depth-2 `to` shape: an inner value unmarshals into
`[]string` iff it is `null` (no-op, leaving a nil slice) or an array of
strings/nulls. -/
def rowOf2D : Json → Option (List String)
  | Json.null => some []
  | Json.arr inner =>
    if inner.all isStrOrNull then some (inner.map jsonElemStr) else none
  | _ => none

/-- The depth-2 `to` shape: every element must unmarshal as a `[]string`
row for the second `json.Unmarshal` to succeed. -/
def list2D : List Json → Option (List (List String))
  | [] => some []
  | j :: rest =>
    match rowOf2D j, list2D rest with
    | some r, some rs => some (r :: rs)
    | _, _ => none

/-- `payload.to1D()`: first unmarshal the raw value as `[]string` — on a
type error `encoding/json` still fills the well-typed elements and zeroes
the rest — then, if that errored, retry as `[][]string` and on success
append, for each inner row, the two elements joined by a single space
(length 2), or the sole element (length 1), skipping other lengths. -/
def to1D (j : Json) : List String :=
  match j with
  | Json.null => []
  | Json.arr l =>
    let first := l.map jsonElemStr
    if l.all isStrOrNull then first
    else
      match list2D l with
      | some rows =>
        rows.foldl
          (fun acc r =>
            if r.length == 2 then
              acc ++ [r.getD 0 "" ++ " " ++ r.getD 1 ""]
            else if r.length == 1 then acc ++ [r.getD 0 ""]
            else acc)
          first
      | none => first
  | _ => []

/-! ## The feed-reference grammar

`matchFeed` uses `regexp.MatchString` with the pattern `^\w+:\w+$` and
`matchFeedWithToken` with `^\w+:\w+ .*?$`.  Both patterns are anchored at
both ends (RE2 without multiline: `^`/`$` match only at the start/end of
the text), so `MatchString` decides a full-string match; `.` matches any
character except `'\n'`.  Because `':'` and `' '` are not word characters,
the match decomposition is unique and the maximal word-character runs
realise it, which the two functions below compute. -/

/-- Full-string match of `^\w+:\w+$`: a non-empty word-character run, a
colon, and a non-empty word-character run reaching the end. -/
def matchFeedRegexL (l : List Char) : Bool :=
  let r1 := l.dropWhile isWordChar
  !(l.takeWhile isWordChar).isEmpty && r1.head? == some ':' &&
    !(r1.tail.takeWhile isWordChar).isEmpty &&
    (r1.tail.dropWhile isWordChar).isEmpty

/-- Full-string match of `^\w+:\w+ .*?$`: a non-empty word-character run,
a colon, a non-empty word-character run, a space, then any characters
other than `'\n'` up to the end. -/
def matchFeedWithTokenRegexL (l : List Char) : Bool :=
  let r1 := l.dropWhile isWordChar
  let r2 := r1.tail
  let r3 := r2.dropWhile isWordChar
  !(l.takeWhile isWordChar).isEmpty && r1.head? == some ':' &&
    !(r2.takeWhile isWordChar).isEmpty && r3.head? == some ' ' &&
    r3.tail.all (fun c => c != '\n')

/-- `strings.Split` around every occurrence of a one-character separator;
`splitOnChar c l` is never empty. -/
def splitOnChar (sep : Char) : List Char → List (List Char)
  | [] => [[]]
  | c :: rest =>
    if c == sep then [] :: splitOnChar sep rest
    else
      match splitOnChar sep rest with
      | [] => [[c]]
      | t :: ts => (c :: t) :: ts

/-- `matchFeed`: on a `^\w+:\w+$` match, split on `":"` and take the two
segments as slug and user ID (the accesses `firstSplit[0]`/`firstSplit[1]`
are in bounds whenever the regex matched; `getD` stands in for Go's
indexing). -/
def matchFeed (toStr : String) : Option GeneralFeed :=
  if matchFeedRegexL toStr.toList then
    let firstSplit := splitOnChar ':' toStr.toList
    some { FeedSlug := String.mk (firstSplit.getD 0 [])
           UserID := String.mk (firstSplit.getD 1 [])
           token := "" }
  else none

/-- `matchFeedWithToken`: on a `^\w+:\w+ .*?$` match, split on `":"`, then
split the second segment on `" "`; slug, user ID and token are
`firstSplit[0]`, `secondSplit[0]` and `secondSplit[1]` (in bounds whenever
the regex matched). -/
def matchFeedWithToken (toStr : String) : Option GeneralFeed :=
  if matchFeedWithTokenRegexL toStr.toList then
    let firstSplit := splitOnChar ':' toStr.toList
    let secondSplit := splitOnChar ' ' (firstSplit.getD 1 [])
    some { FeedSlug := String.mk (firstSplit.getD 0 [])
           UserID := String.mk (secondSplit.getD 0 [])
           token := String.mk (secondSplit.getD 1 []) }
  else none

/-- `payload.To()`: for each string of the flat list, try both matchers
and append whatever each returns. -/
def payloadTo (j : Json) : List GeneralFeed :=
  (to1D j).foldl
    (fun feed toStr =>
      let feed :=
        match matchFeed toStr with
        | some m1 => feed ++ [m1]
        | none => feed
      match matchFeedWithToken toStr with
      | some m2 => feed ++ [m2]
      | none => feed)
    []

/-! ## The decoder -/

/-- Top-level `json.Unmarshal(b, &rawPayload)` into
`map[string]*payload`, at the value level: an object yields its bindings;
`null` is a no-op leaving the empty map and no error; anything else is an
unmarshalling type error. -/
def unmarshalTopMap : Json → Except String (List (String × Json))
  | Json.obj l => Except.ok l
  | Json.null => Except.ok []
  | _ => Except.error "json: cannot unmarshal value into map[string]*payload"

/-- One iteration of the decoder's dispatch loop over `(a, metadata)`:
skip `nil` (JSON `null`) values, switch on the lower-cased key, and fall
through to a metadata insertion under the original key. -/
def processEntry (p : Activity × List (String × Json))
    (kv : String × Json) : Activity × List (String × Json) :=
  if kv.2.isNull then p
  else
    let lowerKey := stringToLower kv.1
    if lowerKey = "id" then ({ p.1 with ID := payloadString kv.2 }, p.2)
    else if lowerKey = "actor" then ({ p.1 with Actor := payloadString kv.2 }, p.2)
    else if lowerKey = "verb" then ({ p.1 with Verb := payloadString kv.2 }, p.2)
    else if lowerKey = "foreign_id" then ({ p.1 with ForeignID := payloadString kv.2 }, p.2)
    else if lowerKey = "object" then ({ p.1 with Object := payloadString kv.2 }, p.2)
    else if lowerKey = "origin" then ({ p.1 with Origin := ⟨payloadString kv.2⟩ }, p.2)
    else if lowerKey = "target" then ({ p.1 with Target := payloadString kv.2 }, p.2)
    else if lowerKey = "time" then ({ p.1 with TimeStamp := payloadTimeStamp kv.2 }, p.2)
    else if lowerKey = "data" then ({ p.1 with Data := some kv.2 }, p.2)
    else if lowerKey = "to" then ({ p.1 with To := payloadTo kv.2 }, p.2)
    else (p.1, mapInsert p.2 kv.1 kv.2)

/-- `Activity.UnmarshalJSON` on receiver `a`: parse the top level, run the
dispatch loop with a fresh metadata map, and install that map. -/
def Activity.UnmarshalJSON (a : Activity) (j : Json) :
    Except String Activity :=
  match unmarshalTopMap j with
  | Except.error e => Except.error e
  | Except.ok rawPayload =>
    let p := rawPayload.foldl processEntry (a, [])
    Except.ok { p.1 with MetaData := some p.2 }

/-- `decode(bytes)`: unmarshal into a zero `Activity`. -/
def decode (j : Json) : Except String Activity :=
  Activity.UnmarshalJSON emptyActivity j

/-! ## The encoder -/

/-- The string rendered for one destination feed:
`feed.FeedID().Value()`, with `" " + feed.Token()` appended when the token
is non-empty. -/
def feedToString (f : GeneralFeed) : String :=
  let toStr := f.FeedID.Value
  if f.Token ≠ "" then toStr ++ " " ++ f.Token else toStr

/-- `Activity.MarshalJSON`: copy the metadata into a fresh payload map,
overwrite/insert the recognized fields (conditionally for `id`, `target`,
`data`, `foreign_id` and `to`), and emit the payload object.  The
wall-clock read `time.Now()` used for an unset timestamp is passed in as
`now` (the spec's injectable clock); serialization of the resulting map to
bytes is elided. -/
def Activity.MarshalJSON (a : Activity) (now : GoTime) :
    List (String × Json) :=
  let payload : List (String × Json) :=
    (a.MetaData.getD []).foldl (fun m kv => mapInsert m kv.1 kv.2) []
  let payload := mapInsert payload "actor" (Json.str a.Actor)
  let payload := mapInsert payload "verb" (Json.str a.Verb)
  let payload := mapInsert payload "object" (Json.str a.Object)
  let payload := mapInsert payload "origin" (Json.str a.Origin.Value)
  let payload := if a.ID ≠ "" then mapInsert payload "id" (Json.str a.ID) else payload
  let payload := if a.Target ≠ "" then mapInsert payload "target" (Json.str a.Target) else payload
  let payload :=
    match a.Data with
    | some d => mapInsert payload "data" d
    | none => payload
  let payload := if a.ForeignID ≠ "" then mapInsert payload "foreign_id" (Json.str a.ForeignID) else payload
  let payload :=
    match a.TimeStamp with
    | none => mapInsert payload "time" (Json.str (formatGoTime now))
    | some t => mapInsert payload "time" (Json.str (formatGoTime t))
  let tos := a.To.map feedToString
  let payload :=
    if tos.isEmpty then payload
    else mapInsert payload "to" (Json.arr (tos.map Json.str))
  payload

/-! ## Basic list lemmas for the grammar proofs -/

theorem takeWhile_append_sat {p : Char → Bool} {l1 : List Char} (x : Char)
    (l2 : List Char) (h1 : ∀ c ∈ l1, p c = true) (hx : p x = false) :
    (l1 ++ x :: l2).takeWhile p = l1 := by
  induction l1 with
  | nil => simp [List.takeWhile, hx]
  | cons a rest ih =>
    have ha : p a = true := h1 a (by simp)
    simp only [List.cons_append, List.takeWhile_cons, ha, if_true]
    rw [ih (fun c hc => h1 c (by simp [hc]))]

theorem dropWhile_append_sat {p : Char → Bool} {l1 : List Char} (x : Char)
    (l2 : List Char) (h1 : ∀ c ∈ l1, p c = true) (hx : p x = false) :
    (l1 ++ x :: l2).dropWhile p = x :: l2 := by
  induction l1 with
  | nil => simp [List.dropWhile, hx]
  | cons a rest ih =>
    have ha : p a = true := h1 a (by simp)
    simp only [List.cons_append, List.dropWhile_cons, ha, if_true]
    exact ih (fun c hc => h1 c (by simp [hc]))

theorem takeWhile_append_all {p : Char → Bool} {l1 : List Char}
    (l2 : List Char) (h1 : ∀ c ∈ l1, p c = true) :
    (l1 ++ l2).takeWhile p = l1 ++ l2.takeWhile p := by
  induction l1 with
  | nil => simp
  | cons a rest ih =>
    have ha : p a = true := h1 a (by simp)
    simp only [List.cons_append, List.takeWhile_cons, ha, if_true]
    rw [ih (fun c hc => h1 c (by simp [hc]))]

theorem takeWhile_all_sat {p : Char → Bool} {l : List Char}
    (h : ∀ c ∈ l, p c = true) : l.takeWhile p = l := by
  have := @takeWhile_append_all p l [] h
  simpa using this

theorem dropWhile_all_sat {p : Char → Bool} {l : List Char}
    (h : ∀ c ∈ l, p c = true) : l.dropWhile p = [] := by
  have h1 := List.takeWhile_append_dropWhile (p := p) (l := l)
  rw [takeWhile_all_sat h] at h1
  have h2 : l ++ l.dropWhile p = l ++ [] := by simpa using h1
  exact List.append_cancel_left h2

/-- Word characters are not `':'`, `' '` or `'\n'`. -/
theorem wordChar_ne {c : Char} (h : isWordChar c = true) :
    (c == ':') = false ∧ (c == ' ') = false ∧ (c == '\n') = false := by
  refine ⟨?_, ?_, ?_⟩ <;> {
    rw [beq_eq_false_iff_ne]
    intro hc
    subst hc
    simp [isWordChar, Char.isAlpha, Char.isUpper, Char.isLower, Char.isDigit] at h
  }

/-! ## `splitOnChar` lemmas -/

theorem splitOnChar_ne_nil (sep : Char) (l : List Char) :
    splitOnChar sep l ≠ [] := by
  cases l with
  | nil => simp [splitOnChar]
  | cons c rest =>
    rw [splitOnChar]
    split
    · simp
    · split <;> simp

theorem splitOnChar_head (sep : Char) (l : List Char) :
    (splitOnChar sep l).getD 0 [] = l.takeWhile (fun c => !(c == sep)) := by
  induction l with
  | nil => simp [splitOnChar]
  | cons c rest ih =>
    rw [splitOnChar]
    by_cases hc : c == sep
    · simp [hc, List.takeWhile_cons]
    · rw [if_neg (by simp_all)]
      have hne := splitOnChar_ne_nil sep rest
      cases hsp : splitOnChar sep rest with
      | nil => exact absurd hsp hne
      | cons t ts =>
        rw [hsp] at ih
        simp only [List.getD, List.get?] at ih ⊢
        simp only [List.takeWhile_cons, hc, Bool.not_false, if_true]
        simp_all

theorem splitOnChar_no_sep {sep : Char} {l : List Char}
    (h : ∀ c ∈ l, (c == sep) = false) : splitOnChar sep l = [l] := by
  induction l with
  | nil => rfl
  | cons c rest ih =>
    rw [splitOnChar, if_neg (by simp_all), ih (fun x hx => h x (by simp [hx]))]

theorem splitOnChar_append_sep {sep : Char} {l1 : List Char} (l2 : List Char)
    (h : ∀ c ∈ l1, (c == sep) = false) :
    splitOnChar sep (l1 ++ sep :: l2) = l1 :: splitOnChar sep l2 := by
  induction l1 with
  | nil => simp [splitOnChar]
  | cons c rest ih =>
    have hc : (c == sep) = false := h c (by simp)
    rw [List.cons_append, splitOnChar, if_neg (by simp_all)]
    rw [ih (fun x hx => h x (by simp [hx]))]

theorem splitOnChar_length_two {sep : Char} {l : List Char}
    (h : sep ∈ l) : 2 ≤ (splitOnChar sep l).length := by
  induction l with
  | nil => simp at h
  | cons c rest ih =>
    rw [splitOnChar]
    by_cases hc : c == sep
    · rw [if_pos hc]
      have := splitOnChar_ne_nil sep rest
      have hlen : 1 ≤ (splitOnChar sep rest).length := by
        cases hsp : splitOnChar sep rest with
        | nil => exact absurd hsp this
        | cons t ts => simp
      simp only [List.length_cons]
      omega
    · rw [if_neg hc]
      have hmem : sep ∈ rest := by
        rcases List.mem_cons.mp h with h1 | h1
        · exact absurd (beq_iff_eq.mpr h1.symm) (by simp_all)
        · exact h1
      have := ih hmem
      cases hsp : splitOnChar sep rest with
      | nil => exact absurd hsp (splitOnChar_ne_nil sep rest)
      | cons t ts =>
        rw [hsp] at this
        simp only [List.length_cons] at this ⊢
        omega


/-! ## Characterizing the two feed patterns -/

theorem matchFeedRegexL_iff (l : List Char) :
    matchFeedRegexL l = true ↔
      ∃ w1 w2 : List Char, l = w1 ++ ':' :: w2 ∧ w1 ≠ [] ∧ w2 ≠ [] ∧
        (∀ c ∈ w1, isWordChar c = true) ∧ (∀ c ∈ w2, isWordChar c = true) := by
  constructor
  · intro h
    simp only [matchFeedRegexL, Bool.and_eq_true, Bool.not_eq_true',
      List.isEmpty_eq_false, List.isEmpty_eq_true, beq_iff_eq] at h
    obtain ⟨⟨⟨h1, h2⟩, h3⟩, h4⟩ := h
    cases hdw : l.dropWhile isWordChar with
    | nil => rw [hdw] at h2; simp at h2
    | cons c r2 =>
      rw [hdw] at h2 h3 h4
      simp only [List.head?_cons, Option.some.injEq] at h2
      subst h2
      simp only [List.tail_cons] at h3 h4
      have hall : r2.takeWhile isWordChar = r2 := by
        have htd := List.takeWhile_append_dropWhile (p := isWordChar) (l := r2)
        rw [h4, List.append_nil] at htd
        exact htd
      refine ⟨l.takeWhile isWordChar, r2, ?_, h1, ?_, ?_, ?_⟩
      · rw [← hdw, List.takeWhile_append_dropWhile]
      · intro hr2
        rw [hr2] at h3
        simp [List.takeWhile] at h3
      · exact fun c hc => List.mem_takeWhile_imp hc
      · intro x hx
        rw [← hall] at hx
        exact List.mem_takeWhile_imp hx
  · rintro ⟨w1, w2, rfl, h1, h2, hw1, hw2⟩
    have hcolon : isWordChar ':' = false := by decide
    simp only [matchFeedRegexL, dropWhile_append_sat ':' w2 hw1 hcolon,
      takeWhile_append_sat ':' w2 hw1 hcolon, List.head?_cons, List.tail_cons,
      takeWhile_all_sat hw2, dropWhile_all_sat hw2]
    simp [h1, h2]

theorem matchFeedWithTokenRegexL_iff (l : List Char) :
    matchFeedWithTokenRegexL l = true ↔
      ∃ w1 w2 rest : List Char, l = w1 ++ ':' :: (w2 ++ ' ' :: rest) ∧
        w1 ≠ [] ∧ w2 ≠ [] ∧
        (∀ c ∈ w1, isWordChar c = true) ∧ (∀ c ∈ w2, isWordChar c = true) ∧
        (∀ c ∈ rest, (c == '\n') = false) := by
  constructor
  · intro h
    simp only [matchFeedWithTokenRegexL, Bool.and_eq_true, Bool.not_eq_true',
      List.isEmpty_eq_false, List.isEmpty_eq_true, beq_iff_eq,
      List.all_eq_true] at h
    obtain ⟨⟨⟨⟨h1, h2⟩, h3⟩, h4⟩, h5⟩ := h
    cases hdw : l.dropWhile isWordChar with
    | nil => rw [hdw] at h2; simp at h2
    | cons c r2 =>
      rw [hdw] at h2 h3 h4 h5
      simp only [List.head?_cons, Option.some.injEq] at h2
      subst h2
      simp only [List.tail_cons] at h3 h4 h5
      cases hdw2 : r2.dropWhile isWordChar with
      | nil => rw [hdw2] at h4; simp at h4
      | cons d rest =>
        rw [hdw2] at h4 h5
        simp only [List.head?_cons, Option.some.injEq] at h4
        subst h4
        simp only [List.tail_cons] at h5
        refine ⟨l.takeWhile isWordChar, r2.takeWhile isWordChar, rest, ?_, h1,
          ?_, ?_, ?_, ?_⟩
        · rw [← hdw2, List.takeWhile_append_dropWhile, ← hdw,
            List.takeWhile_append_dropWhile]
        · intro htw
          rw [htw] at h3
          exact h3 rfl
        · exact fun c hc => List.mem_takeWhile_imp hc
        · exact fun c hc => List.mem_takeWhile_imp hc
        · intro c hcmem
          have := h5 c hcmem
          simpa using this
  · rintro ⟨w1, w2, rest, rfl, h1, h2, hw1, hw2, hrest⟩
    have hcolon : isWordChar ':' = false := by decide
    have hspace : isWordChar ' ' = false := by decide
    simp only [matchFeedWithTokenRegexL,
      dropWhile_append_sat ':' _ hw1 hcolon,
      takeWhile_append_sat ':' _ hw1 hcolon, List.head?_cons, List.tail_cons,
      dropWhile_append_sat ' ' rest hw2 hspace,
      takeWhile_append_sat ' ' rest hw2 hspace, List.all_eq_true]
    simp only [Bool.and_eq_true, Bool.not_eq_true', List.isEmpty_eq_false,
      beq_self_eq_true, List.all_eq_true]
    refine ⟨⟨⟨⟨h1, by simp⟩, h2⟩, by simp⟩, fun c hc => by simpa using hrest c hc⟩

/-! ## Computed forms of `matchFeed` and `matchFeedWithToken` -/

theorem toList_mk (l : List Char) : (String.mk l).toList = l := rfl

theorem mk_toList (s : String) : String.mk s.toList = s := by
  cases s
  rfl

theorem matchFeed_isSome (s : String) :
    (matchFeed s).isSome = matchFeedRegexL s.toList := by
  rw [matchFeed]
  split <;> simp_all

theorem matchFeedWithToken_isSome (s : String) :
    (matchFeedWithToken s).isSome = matchFeedWithTokenRegexL s.toList := by
  rw [matchFeedWithToken]
  split <;> simp_all

theorem matchFeed_eq_none {s : String}
    (h : matchFeedRegexL s.toList = false) : matchFeed s = none := by
  rw [matchFeed, h]
  simp

theorem matchFeedWithToken_eq_none {s : String}
    (h : matchFeedWithTokenRegexL s.toList = false) :
    matchFeedWithToken s = none := by
  rw [matchFeedWithToken, h]
  simp

theorem regex1_no_space {l : List Char} (h : matchFeedRegexL l = true) :
    ' ' ∉ l := by
  obtain ⟨w1, w2, rfl, -, -, hw1, hw2⟩ := (matchFeedRegexL_iff l).mp h
  intro hmem
  rcases List.mem_append.mp hmem with hm | hm
  · have := hw1 ' ' hm
    simp [isWordChar, Char.isAlpha, Char.isUpper, Char.isLower,
      Char.isDigit] at this
  · rcases List.mem_cons.mp hm with hm1 | hm1
    · exact absurd hm1 (by decide)
    · have := hw2 ' ' hm1
      simp [isWordChar, Char.isAlpha, Char.isUpper, Char.isLower,
        Char.isDigit] at this

theorem regex2_space {l : List Char}
    (h : matchFeedWithTokenRegexL l = true) : ' ' ∈ l := by
  obtain ⟨w1, w2, rest, rfl, -, -, -, -, -⟩ :=
    (matchFeedWithTokenRegexL_iff l).mp h
  simp

theorem matchFeed_mk (w1 w2 : List Char) (h1 : w1 ≠ []) (h2 : w2 ≠ [])
    (hw1 : ∀ c ∈ w1, isWordChar c = true)
    (hw2 : ∀ c ∈ w2, isWordChar c = true) :
    matchFeed (String.mk (w1 ++ ':' :: w2)) =
      some ⟨String.mk w1, String.mk w2, ""⟩ := by
  have hre : matchFeedRegexL (w1 ++ ':' :: w2) = true :=
    (matchFeedRegexL_iff _).mpr ⟨w1, w2, rfl, h1, h2, hw1, hw2⟩
  have hw1c : ∀ c ∈ w1, (c == ':') = false :=
    fun c hc => (wordChar_ne (hw1 c hc)).1
  have hw2c : ∀ c ∈ w2, (c == ':') = false :=
    fun c hc => (wordChar_ne (hw2 c hc)).1
  rw [matchFeed, toList_mk, hre, if_pos rfl]
  rw [splitOnChar_append_sep w2 hw1c, splitOnChar_no_sep hw2c]
  rfl

theorem matchFeedWithToken_mk (w1 w2 rest : List Char)
    (h1 : w1 ≠ []) (h2 : w2 ≠ [])
    (hw1 : ∀ c ∈ w1, isWordChar c = true)
    (hw2 : ∀ c ∈ w2, isWordChar c = true)
    (hrest : ∀ c ∈ rest, (c == '\n') = false) :
    matchFeedWithToken (String.mk (w1 ++ ':' :: (w2 ++ ' ' :: rest))) =
      some ⟨String.mk w1, String.mk w2,
        String.mk ((rest.takeWhile (fun c => !(c == ':'))).takeWhile
          (fun c => !(c == ' ')))⟩ := by
  have hre : matchFeedWithTokenRegexL (w1 ++ ':' :: (w2 ++ ' ' :: rest)) = true :=
    (matchFeedWithTokenRegexL_iff _).mpr
      ⟨w1, w2, rest, rfl, h1, h2, hw1, hw2, hrest⟩
  have hw1c : ∀ c ∈ w1, (c == ':') = false :=
    fun c hc => (wordChar_ne (hw1 c hc)).1
  have hw2c : ∀ c ∈ w2, (c == ':') = false :=
    fun c hc => (wordChar_ne (hw2 c hc)).1
  have hw2s : ∀ c ∈ w2, (c == ' ') = false :=
    fun c hc => (wordChar_ne (hw2 c hc)).2.1
  have hsp1 : splitOnChar ':' (w1 ++ ':' :: (w2 ++ ' ' :: rest)) =
      w1 :: splitOnChar ':' (w2 ++ ' ' :: rest) :=
    splitOnChar_append_sep _ hw1c
  have htw : (w2 ++ ' ' :: rest).takeWhile (fun c => !(c == ':')) =
      w2 ++ ' ' :: rest.takeWhile (fun c => !(c == ':')) := by
    rw [takeWhile_append_all _ (fun c hc => by simp [hw2c c hc])]
    rw [List.takeWhile_cons]
    simp
  have hsp2 : splitOnChar ' '
      (w2 ++ ' ' :: rest.takeWhile (fun c => !(c == ':'))) =
      w2 :: splitOnChar ' ' (rest.takeWhile (fun c => !(c == ':'))) :=
    splitOnChar_append_sep _ hw2s
  rw [matchFeedWithToken, toList_mk, hre, if_pos rfl]
  simp only [hsp1, List.getD_cons_succ, List.getD_cons_zero, splitOnChar_head,
    htw, hsp2]

/-- The two anchored patterns are mutually exclusive: `^\w+:\w+$` forbids
spaces while `^\w+:\w+ .*?$` requires one. -/
theorem match_exclusive (s : String) :
    ((matchFeed s).isSome && (matchFeedWithToken s).isSome) = false := by
  rw [matchFeed_isSome, matchFeedWithToken_isSome]
  cases h1 : matchFeedRegexL s.toList with
  | false => simp
  | true =>
    cases h2 : matchFeedWithTokenRegexL s.toList with
    | false => simp
    | true => exact absurd (regex2_space h2) (regex1_no_space h1)

theorem payloadTo_foldl_le (l : List String) :
    ∀ acc : List GeneralFeed,
      (l.foldl
        (fun feed toStr =>
          let feed :=
            match matchFeed toStr with
            | some m1 => feed ++ [m1]
            | none => feed
          match matchFeedWithToken toStr with
          | some m2 => feed ++ [m2]
          | none => feed)
        acc).length ≤ acc.length + l.length := by
  induction l with
  | nil => simp
  | cons s rest ih =>
    intro acc
    simp only [List.foldl_cons, List.length_cons]
    refine le_trans (ih _) ?_
    have hx := match_exclusive s
    cases hm1 : matchFeed s <;> cases hm2 : matchFeedWithToken s <;>
      simp_all <;> omega

/-- Each flat `to` string contributes at most one reference. -/
theorem payloadTo_length_le (j : Json) :
    (payloadTo j).length ≤ (to1D j).length := by
  rw [payloadTo]
  have := payloadTo_foldl_le (to1D j) []
  simpa using this

/-! ## Round-tripping well-formed feed references -/

/-- Well-formedness of a feed reference for the wire grammar: slug and
user ID are non-empty runs of word characters, and the token is empty or
free of spaces, colons and newlines. -/
def wfFeed (f : GeneralFeed) : Bool :=
  !f.FeedSlug.toList.isEmpty && f.FeedSlug.toList.all isWordChar &&
    !f.UserID.toList.isEmpty && f.UserID.toList.all isWordChar &&
    (f.token == "" ||
      f.token.toList.all (fun c => !(c == ' ') && !(c == ':') && !(c == '\n')))

theorem string_append_toList (a b : String) :
    (a ++ b).toList = a.toList ++ b.toList := by
  cases a
  cases b
  rfl

theorem feedToString_no_token {f : GeneralFeed} (h : f.token = "") :
    (feedToString f).toList = f.FeedSlug.toList ++ ':' :: f.UserID.toList := by
  rw [feedToString]
  simp only [GeneralFeed.Token, h, ne_eq, not_true_eq_false, if_false]
  rw [GeneralFeed.FeedID, FeedID.Value]
  rw [string_append_toList, string_append_toList]
  have hc : (":" : String).toList = [':'] := rfl
  simp [hc]

theorem feedToString_token {f : GeneralFeed} (h : f.token ≠ "") :
    (feedToString f).toList =
      f.FeedSlug.toList ++ ':' :: (f.UserID.toList ++ ' ' :: f.token.toList) := by
  rw [feedToString]
  simp only [GeneralFeed.Token, h, ne_eq, not_false_eq_true, if_true]
  rw [GeneralFeed.FeedID, FeedID.Value]
  rw [string_append_toList, string_append_toList, string_append_toList,
    string_append_toList]
  have hc : (":" : String).toList = [':'] := rfl
  have hsp : (" " : String).toList = [' '] := rfl
  simp [hc, hsp]

/-- A well-formed feed with no token is recovered exactly by `matchFeed`,
and `matchFeedWithToken` rejects its rendering. -/
theorem matchFeed_roundtrip {f : GeneralFeed} (hwf : wfFeed f = true)
    (htok : f.token = "") :
    matchFeed (feedToString f) = some f ∧
      matchFeedWithToken (feedToString f) = none := by
  simp only [wfFeed, Bool.and_eq_true, Bool.not_eq_true',
    List.isEmpty_eq_false, List.all_eq_true] at hwf
  obtain ⟨⟨⟨⟨hs1, hs2⟩, hu1⟩, hu2⟩, -⟩ := hwf
  have hshape := feedToString_no_token htok
  constructor
  · have hmk := matchFeed_mk f.FeedSlug.toList f.UserID.toList hs1 hu1 hs2 hu2
    rw [← mk_toList (feedToString f), hshape, hmk, mk_toList, mk_toList, ← htok]
  · have hnospace : ' ' ∉ (feedToString f).toList := by
      rw [hshape]
      intro hmem
      rcases List.mem_append.mp hmem with hm | hm
      · have := hs2 ' ' hm
        simp [isWordChar, Char.isAlpha, Char.isUpper, Char.isLower,
          Char.isDigit] at this
      · rcases List.mem_cons.mp hm with hm1 | hm1
        · exact absurd hm1 (by decide)
        · have := hu2 ' ' hm1
          simp [isWordChar, Char.isAlpha, Char.isUpper, Char.isLower,
            Char.isDigit] at this
    apply matchFeedWithToken_eq_none
    rw [← Bool.not_eq_true]
    intro hcon
    exact hnospace (regex2_space hcon)

/-- A well-formed feed with a token is recovered exactly by
`matchFeedWithToken`, and `matchFeed` rejects its rendering. -/
theorem matchFeedWithToken_roundtrip {f : GeneralFeed} (hwf : wfFeed f = true)
    (htok : f.token ≠ "") :
    matchFeedWithToken (feedToString f) = some f ∧
      matchFeed (feedToString f) = none := by
  simp only [wfFeed, Bool.and_eq_true, Bool.or_eq_true, Bool.not_eq_true',
    List.isEmpty_eq_false, List.all_eq_true] at hwf
  obtain ⟨⟨⟨⟨hs1, hs2⟩, hu1⟩, hu2⟩, htk⟩ := hwf
  have htok2 : ∀ c ∈ f.token.toList,
      ((c == ' ') = false ∧ (c == ':') = false) ∧ (c == '\n') = false := by
    rcases htk with htk | htk
    · exact absurd (by rwa [beq_iff_eq] at htk) htok
    · exact htk
  have hshape := feedToString_token htok
  constructor
  · have hrest : ∀ c ∈ f.token.toList, (c == '\n') = false :=
      fun c hc => (htok2 c hc).2
    have hmk := matchFeedWithToken_mk f.FeedSlug.toList f.UserID.toList
      f.token.toList hs1 hu1 hs2 hu2 hrest
    have htk1 : f.token.toList.takeWhile (fun c => !(c == ':')) =
        f.token.toList := by
      apply takeWhile_all_sat
      intro c hc
      simp [(htok2 c hc).1.2]
    have htk2 : f.token.toList.takeWhile (fun c => !(c == ' ')) =
        f.token.toList := by
      apply takeWhile_all_sat
      intro c hc
      simp [(htok2 c hc).1.1]
    rw [← mk_toList (feedToString f), hshape, hmk, htk1, htk2, mk_toList,
      mk_toList, mk_toList]
  · have hspace : ' ' ∈ (feedToString f).toList := by
      rw [hshape]
      simp
    apply matchFeed_eq_none
    rw [← Bool.not_eq_true]
    intro hcon
    exact regex1_no_space hcon hspace

/-! ## Round-tripping the fixed time layout -/

theorem digitToChar_round {x : Nat} (h : x < 10) :
    charToDigit (digitToChar x) = x ∧ isDigitChar (digitToChar x) = true := by
  interval_cases x <;> exact ⟨rfl, by decide⟩

theorem getnum2_pad2 {n : Nat} (h : n ≤ 99) (r : List Char) :
    getnum2 (pad2 n ++ r) = some (n, r) := by
  have h1 : n / 10 < 10 := by omega
  have h2 : n % 10 < 10 := by omega
  obtain ⟨hc1, hd1⟩ := digitToChar_round h1
  obtain ⟨hc2, hd2⟩ := digitToChar_round h2
  have hn : 10 * (n / 10) + n % 10 = n := by omega
  simp only [pad2, List.cons_append, List.nil_append, getnum2, hd1, hd2,
    Bool.and_self, if_true, hc1, hc2, hn]

theorem getnumFlex_pad2 {n : Nat} (h : n ≤ 99) (r : List Char) :
    getnumFlex (pad2 n ++ r) = some (n, r) := by
  have h1 : n / 10 < 10 := by omega
  have h2 : n % 10 < 10 := by omega
  obtain ⟨hc1, hd1⟩ := digitToChar_round h1
  obtain ⟨hc2, hd2⟩ := digitToChar_round h2
  have hn : 10 * (n / 10) + n % 10 = n := by omega
  simp only [pad2, List.cons_append, List.nil_append, getnumFlex, hd1, hd2,
    if_true, hc1, hc2, hn]

theorem getnum4_pad4 {n : Nat} (h : n ≤ 9999) (r : List Char) :
    getnum4 (pad4 n ++ r) = some (n, r) := by
  have h1 : n / 1000 < 10 := by omega
  have h2 : n / 100 % 10 < 10 := by omega
  have h3 : n / 10 % 10 < 10 := by omega
  have h4 : n % 10 < 10 := by omega
  obtain ⟨hc1, hd1⟩ := digitToChar_round h1
  obtain ⟨hc2, hd2⟩ := digitToChar_round h2
  obtain ⟨hc3, hd3⟩ := digitToChar_round h3
  obtain ⟨hc4, hd4⟩ := digitToChar_round h4
  have hn : 1000 * (n / 1000) + 100 * (n / 100 % 10) + 10 * (n / 10 % 10) +
      n % 10 = n := by omega
  simp only [pad4, List.cons_append, List.nil_append, getnum4, hd1, hd2, hd3,
    hd4, Bool.and_self, if_true, hc1, hc2, hc3, hc4, hn]

theorem digitsVal_concat (l : List Char) (c : Char) :
    digitsVal (l ++ [c]) = 10 * digitsVal l + charToDigit c := by
  simp [digitsVal, List.foldl_append]

theorem digitsVal_append_zeros (l : List Char) (k : Nat) :
    digitsVal (l ++ List.replicate k '0') = digitsVal l * 10 ^ k := by
  induction k with
  | zero => simp
  | succ k ih =>
    rw [List.replicate_succ', ← List.append_assoc, digitsVal_concat, ih]
    have : charToDigit '0' = 0 := rfl
    rw [this]
    ring

theorem digitsVal_pad6 {n : Nat} (h : n < 1000000) :
    digitsVal (pad6 n) = n := by
  have h1 : n / 100000 < 10 := by omega
  have h2 : n / 10000 % 10 < 10 := by omega
  have h3 : n / 1000 % 10 < 10 := by omega
  have h4 : n / 100 % 10 < 10 := by omega
  have h5 : n / 10 % 10 < 10 := by omega
  have h6 : n % 10 < 10 := by omega
  simp only [pad6, digitsVal, List.foldl_cons, List.foldl_nil,
    (digitToChar_round h1).1, (digitToChar_round h2).1,
    (digitToChar_round h3).1, (digitToChar_round h4).1,
    (digitToChar_round h5).1, (digitToChar_round h6).1]
  omega

theorem pad6_digits {n : Nat} (h : n < 1000000) :
    ∀ c ∈ pad6 n, isDigitChar c = true := by
  have h1 : n / 100000 < 10 := by omega
  have h2 : n / 10000 % 10 < 10 := by omega
  have h3 : n / 1000 % 10 < 10 := by omega
  have h4 : n / 100 % 10 < 10 := by omega
  have h5 : n / 10 % 10 < 10 := by omega
  have h6 : n % 10 < 10 := by omega
  intro c hc
  simp only [pad6, List.mem_cons, List.not_mem_nil, or_false] at hc
  rcases hc with rfl | rfl | rfl | rfl | rfl | rfl
  · exact (digitToChar_round h1).2
  · exact (digitToChar_round h2).2
  · exact (digitToChar_round h3).2
  · exact (digitToChar_round h4).2
  · exact (digitToChar_round h5).2
  · exact (digitToChar_round h6).2

theorem digitsVal_all_zero {l : List Char}
    (h : ∀ c ∈ l, (c == '0') = true) : digitsVal l = 0 := by
  induction l with
  | nil => rfl
  | cons c rest ih =>
    have hc : c = '0' := beq_iff_eq.mp (h c (by simp))
    subst hc
    have hrest := ih (fun x hx => h x (by simp [hx]))
    simp only [digitsVal, List.foldl_cons] at hrest ⊢
    have : (10 * 0 + charToDigit '0') = 0 := rfl
    simpa [this] using hrest

theorem rdropWhile_append_rtakeWhile (p : Char → Bool) (l : List Char) :
    l.rdropWhile p ++ l.rtakeWhile p = l := by
  rw [List.rdropWhile, List.rtakeWhile, ← List.reverse_append,
    List.takeWhile_append_dropWhile, List.reverse_reverse]

theorem parseFrac_frac6 {nanos : Nat} (h9 : nanos < 1000000000)
    (hM : nanos % 1000 = 0) : parseFrac (frac6 nanos) = some (nanos, []) := by
  by_cases h0 : nanos / 1000 = 0
  · have hz : nanos = 0 := by omega
    subst hz
    rfl
  · have hm6 : nanos / 1000 < 1000000 := by omega
    have hds := rdropWhile_append_rtakeWhile (fun c => c == '0')
      (pad6 (nanos / 1000))
    have hzs : (pad6 (nanos / 1000)).rtakeWhile (fun c => c == '0') =
        List.replicate
          ((pad6 (nanos / 1000)).rtakeWhile (fun c => c == '0')).length '0' :=
      List.eq_replicate_iff.mpr
        ⟨rfl, fun b hb =>
          beq_iff_eq.mp
            (List.mem_rtakeWhile_imp (p := fun c => c == '0') hb)⟩
    have hlen :
        ((pad6 (nanos / 1000)).rdropWhile (fun c => c == '0')).length +
          ((pad6 (nanos / 1000)).rtakeWhile (fun c => c == '0')).length = 6 := by
      have hl := congrArg List.length hds
      rw [List.length_append] at hl
      simpa [pad6] using hl
    have hval :
        digitsVal ((pad6 (nanos / 1000)).rdropWhile (fun c => c == '0')) *
          10 ^ ((pad6 (nanos / 1000)).rtakeWhile (fun c => c == '0')).length =
          nanos / 1000 := by
      have h1 := digitsVal_pad6 hm6
      rw [← hds, hzs, digitsVal_append_zeros] at h1
      exact h1
    have hdsne : (pad6 (nanos / 1000)).rdropWhile (fun c => c == '0') ≠ [] := by
      intro hnil
      rw [hnil] at hval
      simp [digitsVal] at hval
      exact h0 hval.symm
    have hdsd : ∀ c ∈ (pad6 (nanos / 1000)).rdropWhile (fun c => c == '0'),
        isDigitChar c = true := by
      intro c hc
      exact pad6_digits hm6 c ((List.rdropWhile_prefix _ _).subset hc)
    have hfr : frac6 nanos =
        '.' :: (pad6 (nanos / 1000)).rdropWhile (fun c => c == '0') := by
      rw [frac6]
      have hne : ((nanos / 1000) == 0) = false := by
        rw [beq_eq_false_iff_ne]
        exact h0
      simp only [hne, Bool.false_eq_true, if_false]
    obtain ⟨d, ds2, hcons⟩ := List.exists_cons_of_ne_nil hdsne
    rw [hfr, hcons]
    have hdsd2 : ∀ c ∈ d :: ds2, isDigitChar c = true := by
      rw [← hcons]; exact hdsd
    have hlen9 : (d :: ds2).length ≤ 9 := by
      have := hlen
      rw [hcons] at this
      simp only [List.length_cons] at this ⊢
      omega
    have hdd : isDigitChar d = true := hdsd2 d (by simp)
    have hpd : (('.' == '.') || ('.' == ',')) = true := rfl
    simp only [parseFrac, hpd, Bool.true_and, hdd, if_true,
      takeWhile_all_sat hdsd2, dropWhile_all_sat hdsd2,
      List.take_of_length_le hlen9, Nat.min_eq_left hlen9]
    have hL : (d :: ds2).length +
        ((pad6 (nanos / 1000)).rtakeWhile (fun c => c == '0')).length = 6 := by
      rw [← hcons]
      exact hlen
    have hvv : digitsVal (d :: ds2) *
        10 ^ ((pad6 (nanos / 1000)).rtakeWhile (fun c => c == '0')).length =
        nanos / 1000 := by
      rw [← hcons]
      exact hval
    have hfin : digitsVal (d :: ds2) * 10 ^ (9 - (d :: ds2).length) = nanos := by
    
      have hz3 : 9 - (d :: ds2).length =
          ((pad6 (nanos / 1000)).rtakeWhile (fun c => c == '0')).length + 3 := by
        omega
      rw [hz3, pow_add, ← Nat.mul_assoc, hvv]
      have h1000 : (10 : Nat) ^ 3 = 1000 := by norm_num
      rw [h1000]
      omega
    rw [hfin]

theorem daysIn_le (m y : Nat) : daysIn m y ≤ 31 := by
  rw [daysIn]
  split_ifs <;> omega

/-- Validity of a calendar tuple for the wire format: the ranges that
`time.Parse` enforces (and every `time.Time` satisfies), a four-digit
year, and nanoseconds at the microsecond resolution the layout carries. -/
def validWireTime (t : GoTime) : Bool :=
  decide (t.year ≤ 9999) && decide (1 ≤ t.month) && decide (t.month ≤ 12) &&
    decide (1 ≤ t.day) && decide (t.day ≤ daysIn t.month t.year) &&
    decide (t.hour ≤ 23) && decide (t.minute ≤ 59) &&
    decide (t.second ≤ 59) && decide (t.nanos < 1000000000) &&
    decide (t.nanos % 1000 = 0)

/-- Formatting a valid microsecond-resolution time with the fixed layout
and parsing it back is the identity. -/
theorem parseLayoutChars_format {t : GoTime} (hv : validWireTime t = true) :
    parseLayoutChars (formatChars t) = some t := by
  obtain ⟨y, mo, d, hr, mi, s, ns⟩ := t
  simp only [validWireTime, Bool.and_eq_true, decide_eq_true_eq] at hv
  obtain ⟨⟨⟨⟨⟨⟨⟨⟨⟨hy, hmo1⟩, hmo2⟩, hd1⟩, hd2⟩, hh⟩, hmi⟩, hs⟩, hns⟩, hnsM⟩ := hv
  have hd99 : d ≤ 99 := by
    have := daysIn_le mo y
    omega
  have e4 := getnum4_pad4 (n := y) hy
  have emo := getnum2_pad2 (n := mo) (by omega)
  have ed := getnum2_pad2 (n := d) (by omega)
  have ehr := getnumFlex_pad2 (n := hr) (by omega)
  have emi := getnum2_pad2 (n := mi) (by omega)
  have es := getnum2_pad2 (n := s) (by omega)
  have efr := parseFrac_frac6 hns hnsM
  have c1 : decide (1 ≤ mo) = true := decide_eq_true hmo1
  have c2 : decide (mo ≤ 12) = true := decide_eq_true hmo2
  have c3 : decide (1 ≤ d) = true := decide_eq_true hd1
  have c4 : decide (d ≤ daysIn mo y) = true := decide_eq_true hd2
  have c5 : decide (hr ≤ 23) = true := decide_eq_true hh
  have c6 : decide (mi ≤ 59) = true := decide_eq_true hmi
  have c7 : decide (s ≤ 59) = true := decide_eq_true hs
  simp only [formatChars, parseLayoutChars, e4, emo, ed, ehr, emi, es, efr,
    List.isEmpty_nil, c1, c2, c3, c4, c5, c6, c7, Bool.and_self,
    Bool.true_and, Bool.and_true, if_true]

/-! ## Decoder dispatch lemmas -/

/-- The ten recognized (lower-cased) field names of the dispatch switch. -/
def recognizedKey (s : String) : Bool :=
  s == "id" || s == "actor" || s == "verb" || s == "foreign_id" ||
    s == "object" || s == "origin" || s == "target" || s == "time" ||
    s == "data" || s == "to"

theorem processEntry_null {p : Activity × List (String × Json)}
    {kv : String × Json} (h : kv.2.isNull = true) :
    processEntry p kv = p := by
  simp [processEntry, h]

theorem processEntry_unrecognized {p : Activity × List (String × Json)}
    {kv : String × Json} (hnull : kv.2.isNull = false)
    (hk : recognizedKey (stringToLower kv.1) = false) :
    processEntry p kv = (p.1, mapInsert p.2 kv.1 kv.2) := by
  simp only [recognizedKey, Bool.or_eq_false_iff, beq_eq_false_iff_ne] at hk
  obtain ⟨⟨⟨⟨⟨⟨⟨⟨⟨h1, h2⟩, h3⟩, h4⟩, h5⟩, h6⟩, h7⟩, h8⟩, h9⟩, h10⟩ := hk
  simp only [processEntry, hnull, Bool.false_eq_true, if_false]
  rw [if_neg h1, if_neg h2, if_neg h3, if_neg h4, if_neg h5, if_neg h6,
    if_neg h7, if_neg h8, if_neg h9, if_neg h10]

theorem processEntry_recognized_snd {p : Activity × List (String × Json)}
    {kv : String × Json}
    (hk : recognizedKey (stringToLower kv.1) = true) :
    (processEntry p kv).2 = p.2 := by
  by_cases hnull : kv.2.isNull = true
  · rw [processEntry_null hnull]
  · rw [Bool.not_eq_true] at hnull
    simp only [recognizedKey, Bool.or_eq_true, beq_iff_eq] at hk
    simp only [processEntry, hnull, Bool.false_eq_true, if_false]
    rcases hk with ((((((((h1 | h2) | h3) | h4) | h5) | h6) | h7) | h8) | h9) | h10
    case _ =>
      rw [h1]
      rw [if_pos rfl]
    case _ =>
      rw [h2]
      rw [if_neg (by decide)]
      rw [if_pos rfl]
    case _ =>
      rw [h3]
      rw [if_neg (by decide)]
      rw [if_neg (by decide)]
      rw [if_pos rfl]
    case _ =>
      rw [h4]
      rw [if_neg (by decide)]
      rw [if_neg (by decide)]
      rw [if_neg (by decide)]
      rw [if_pos rfl]
    case _ =>
      rw [h5]
      rw [if_neg (by decide)]
      rw [if_neg (by decide)]
      rw [if_neg (by decide)]
      rw [if_neg (by decide)]
      rw [if_pos rfl]
    case _ =>
      rw [h6]
      rw [if_neg (by decide)]
      rw [if_neg (by decide)]
      rw [if_neg (by decide)]
      rw [if_neg (by decide)]
      rw [if_neg (by decide)]
      rw [if_pos rfl]
    case _ =>
      rw [h7]
      rw [if_neg (by decide)]
      rw [if_neg (by decide)]
      rw [if_neg (by decide)]
      rw [if_neg (by decide)]
      rw [if_neg (by decide)]
      rw [if_neg (by decide)]
      rw [if_pos rfl]
    case _ =>
      rw [h8]
      rw [if_neg (by decide)]
      rw [if_neg (by decide)]
      rw [if_neg (by decide)]
      rw [if_neg (by decide)]
      rw [if_neg (by decide)]
      rw [if_neg (by decide)]
      rw [if_neg (by decide)]
      rw [if_pos rfl]
    case _ =>
      rw [h9]
      rw [if_neg (by decide)]
      rw [if_neg (by decide)]
      rw [if_neg (by decide)]
      rw [if_neg (by decide)]
      rw [if_neg (by decide)]
      rw [if_neg (by decide)]
      rw [if_neg (by decide)]
      rw [if_neg (by decide)]
      rw [if_pos rfl]
    case _ =>
      rw [h10]
      rw [if_neg (by decide)]
      rw [if_neg (by decide)]
      rw [if_neg (by decide)]
      rw [if_neg (by decide)]
      rw [if_neg (by decide)]
      rw [if_neg (by decide)]
      rw [if_neg (by decide)]
      rw [if_neg (by decide)]
      rw [if_neg (by decide)]
      rw [if_pos rfl]

theorem processEntry_md_cases (p : Activity × List (String × Json))
    (kv : String × Json) :
    (processEntry p kv).2 = p.2 ∨
      ((processEntry p kv).2 = mapInsert p.2 kv.1 kv.2 ∧
        recognizedKey (stringToLower kv.1) = false ∧ kv.2.isNull = false) := by
  by_cases hnull : kv.2.isNull = true
  · left
    rw [processEntry_null hnull]
  · rw [Bool.not_eq_true] at hnull
    by_cases hk : recognizedKey (stringToLower kv.1) = true
    · left
      exact processEntry_recognized_snd hk
    · rw [Bool.not_eq_true] at hk
      right
      rw [processEntry_unrecognized hnull hk]
      exact ⟨rfl, hk, hnull⟩

theorem processEntry_snd_indep (a1 a2 : Activity)
    (md : List (String × Json)) (kv : String × Json) :
    (processEntry (a1, md) kv).2 = (processEntry (a2, md) kv).2 := by
  by_cases hnull : kv.2.isNull = true
  · rw [processEntry_null hnull, processEntry_null hnull]
  · rw [Bool.not_eq_true] at hnull
    by_cases hk : recognizedKey (stringToLower kv.1) = true
    · rw [processEntry_recognized_snd hk, processEntry_recognized_snd hk]
    · rw [Bool.not_eq_true] at hk
      rw [processEntry_unrecognized hnull hk,
        processEntry_unrecognized hnull hk]

/-! ## Membership and lookup through `mapInsert` -/

theorem mem_mapInsert {m : List (String × Json)} {k : String} {v : Json}
    {q : String × Json} (h : q ∈ mapInsert m k v) : q ∈ m ∨ q.1 = k := by
  rw [mapInsert] at h
  split at h
  · rcases List.mem_map.mp h with ⟨p, hp, hq⟩
    by_cases hpk : (p.1 == k) = true
    · rw [if_pos hpk] at hq
      right
      rw [← hq]
    · rw [if_neg (by simp_all)] at hq
      left
      rw [← hq]
      exact hp
  · rcases List.mem_append.mp h with h1 | h1
    · exact Or.inl h1
    · right
      rcases List.mem_singleton.mp h1 with rfl
      rfl

theorem mapInsert_self_mem (m : List (String × Json)) (k : String) (v : Json) :
    (k, v) ∈ mapInsert m k v := by
  rw [mapInsert]
  split
  case isTrue h =>
    rcases List.any_eq_true.mp h with ⟨p, hp, hpk⟩
    apply List.mem_map.mpr
    exact ⟨p, hp, by rw [if_pos hpk]⟩
  case isFalse h =>
    simp

theorem mapInsert_keyMem {m : List (String × Json)} {k0 : String}
    (hmem : ∃ w, (k0, w) ∈ m) (k : String) (v : Json) :
    ∃ w, (k0, w) ∈ mapInsert m k v := by
  obtain ⟨w, hw⟩ := hmem
  by_cases hk : k0 = k
  · subst hk
    exact ⟨v, mapInsert_self_mem m k0 v⟩
  · rw [mapInsert]
    split
    · refine ⟨w, List.mem_map.mpr ⟨(k0, w), hw, ?_⟩⟩
      rw [if_neg (by simp [hk])]
    · exact ⟨w, List.mem_append.mpr (Or.inl hw)⟩

theorem mapInsert_cons_ne {q : String × Json} {rest : List (String × Json)}
    {k : String} (v : Json) (hq : (q.1 == k) = false) :
    mapInsert (q :: rest) k v = q :: mapInsert rest k v := by
  rw [mapInsert, mapInsert]
  simp only [List.any_cons, hq, Bool.false_or]
  split
  · simp only [List.map_cons, hq, Bool.false_eq_true, if_false]
  · simp

theorem mapLookup_cons_ne {q : String × Json} {m : List (String × Json)}
    {k : String} (hq : (q.1 == k) = false) :
    mapLookup (q :: m) k = mapLookup m k := by
  rw [mapLookup, mapLookup, List.find?_cons, hq]

theorem mapLookup_mapInsert_self (m : List (String × Json)) (k : String)
    (v : Json) : mapLookup (mapInsert m k v) k = some v := by
  induction m with
  | nil =>
    simp [mapInsert, mapLookup, List.find?]
  | cons q rest ih =>
    by_cases hq : (q.1 == k) = true
    · rw [mapInsert]
      simp only [List.any_cons, hq, Bool.true_or, if_true, List.map_cons,
        if_pos hq]
      rw [mapLookup, List.find?_cons]
      simp
    · rw [Bool.not_eq_true] at hq
      rw [mapInsert_cons_ne v hq, mapLookup_cons_ne hq, ih]

theorem mapLookup_map_ite_ne {m : List (String × Json)} {k k2 : String}
    (v : Json) (h : (k == k2) = false) :
    mapLookup (m.map (fun p => if p.1 == k then (k, v) else p)) k2 =
      mapLookup m k2 := by
  induction m with
  | nil => rfl
  | cons q rest ih =>
    simp only [List.map_cons]
    by_cases hq : (q.1 == k) = true
    · rw [if_pos hq]
      have hk2 : (q.1 == k2) = false := by
        rw [beq_iff_eq] at hq
        rw [hq]
        exact h
      rw [mapLookup_cons_ne (q := (k, v)) h, mapLookup_cons_ne hk2, ih]
    · rw [if_neg (by simp_all)]
      by_cases hq2 : (q.1 == k2) = true
      · rw [mapLookup, mapLookup, List.find?_cons, List.find?_cons, hq2]
      · rw [Bool.not_eq_true] at hq2
        rw [mapLookup_cons_ne hq2, mapLookup_cons_ne hq2, ih]

theorem mapLookup_mapInsert_ne {m : List (String × Json)} {k k2 : String}
    (v : Json) (h : (k == k2) = false) :
    mapLookup (mapInsert m k v) k2 = mapLookup m k2 := by
  rw [mapInsert]
  split
  · exact mapLookup_map_ite_ne v h
  · rw [mapLookup, List.find?_append, mapLookup]
    cases hf : m.find? (fun p => p.1 == k2) with
    | some p => simp
    | none =>
      simp only [Option.none_orElse]
      rw [List.find?]
      simp only [h]
      rfl

/-! ## Folding the dispatch loop -/

theorem foldl_mapInsert_fresh (l : List (String × Json)) :
    ∀ acc : List (String × Json),
      (∀ p ∈ l, acc.any (fun q => q.1 == p.1) = false) →
      (l.map Prod.fst).Nodup →
      l.foldl (fun m kv => mapInsert m kv.1 kv.2) acc = acc ++ l := by
  induction l with
  | nil => simp
  | cons kv rest ih =>
    intro acc hfresh hnodup
    simp only [List.map_cons, List.nodup_cons] at hnodup
    simp only [List.foldl_cons]
    have hins : mapInsert acc kv.1 kv.2 = acc ++ [kv] := by
      rw [mapInsert, if_neg (by simp [hfresh kv (by simp)])]
    rw [hins, ih (acc ++ [kv]) ?_ hnodup.2]
    · simp
    · intro p hp
      rw [List.any_append]
      have h1 : acc.any (fun q => q.1 == p.1) = false :=
        hfresh p (by simp [hp])
      have h2 : (kv.1 == p.1) = false := by
        rw [beq_eq_false_iff_ne]
        intro hekv
        exact hnodup.1 (hekv ▸ List.mem_map_of_mem Prod.fst hp)
      simp [h1, h2]

theorem foldl_processEntry_unrec (l : List (String × Json)) :
    ∀ (A : Activity) (md : List (String × Json)),
      (∀ p ∈ l, recognizedKey (stringToLower p.1) = false ∧
        p.2.isNull = false) →
      l.foldl processEntry (A, md) =
        (A, l.foldl (fun m kv => mapInsert m kv.1 kv.2) md) := by
  induction l with
  | nil => simp
  | cons kv rest ih =>
    intro A md h
    simp only [List.foldl_cons]
    rw [processEntry_unrecognized (h kv (by simp)).2 (h kv (by simp)).1]
    exact ih A (mapInsert md kv.1 kv.2) (fun p hp => h p (by simp [hp]))

theorem foldl_md_unrec (l : List (String × Json)) :
    ∀ (p0 : Activity × List (String × Json)),
      (∀ q ∈ p0.2, recognizedKey (stringToLower q.1) = false) →
      ∀ q ∈ (l.foldl processEntry p0).2,
        recognizedKey (stringToLower q.1) = false := by
  induction l with
  | nil => exact fun p0 h0 => h0
  | cons kv rest ih =>
    intro p0 h0
    simp only [List.foldl_cons]
    apply ih
    rcases processEntry_md_cases p0 kv with hc | ⟨hc, hunrec, -⟩
    · rw [hc]
      exact h0
    · rw [hc]
      intro q hq
      rcases mem_mapInsert hq with hq1 | hq1
      · exact h0 q hq1
      · rw [hq1]
        exact hunrec

theorem foldl_keyMem_preserved (l : List (String × Json)) (k0 : String) :
    ∀ (p0 : Activity × List (String × Json)),
      (∃ w, (k0, w) ∈ p0.2) →
      ∃ w, (k0, w) ∈ (l.foldl processEntry p0).2 := by
  induction l with
  | nil => exact fun p0 h => h
  | cons kv rest ih =>
    intro p0 h
    simp only [List.foldl_cons]
    apply ih
    rcases processEntry_md_cases p0 kv with hc | ⟨hc, -, -⟩
    · rw [hc]
      exact h
    · rw [hc]
      exact mapInsert_keyMem h kv.1 kv.2

theorem foldl_key_present (l : List (String × Json)) (k : String) (v : Json) :
    ∀ (p0 : Activity × List (String × Json)),
      (k, v) ∈ l → v.isNull = false →
      recognizedKey (stringToLower k) = false →
      ∃ w, (k, w) ∈ (l.foldl processEntry p0).2 := by
  induction l with
  | nil => intro p0 h; simp at h
  | cons kv rest ih =>
    intro p0 hmem hnull hunrec
    simp only [List.foldl_cons]
    rcases List.mem_cons.mp hmem with heq | hin
    · subst heq
      apply foldl_keyMem_preserved
      rw [@processEntry_unrecognized p0 (k, v) hnull hunrec]
      exact ⟨v, mapInsert_self_mem p0.2 k v⟩
    · exact ih (processEntry p0 kv) hin hnull hunrec

theorem processEntry_snd_congr {p1 p2 : Activity × List (String × Json)}
    (h : p1.2 = p2.2) (kv : String × Json) :
    (processEntry p1 kv).2 = (processEntry p2 kv).2 := by
  obtain ⟨a1, md1⟩ := p1
  obtain ⟨a2, md2⟩ := p2
  simp only at h
  subst h
  exact processEntry_snd_indep a1 a2 md1 kv

theorem foldl_snd_indep (l : List (String × Json)) :
    ∀ (p1 p2 : Activity × List (String × Json)), p1.2 = p2.2 →
      (l.foldl processEntry p1).2 = (l.foldl processEntry p2).2 := by
  induction l with
  | nil => exact fun p1 p2 h => h
  | cons kv rest ih =>
    intro p1 p2 h
    simp only [List.foldl_cons]
    exact ih _ _ (processEntry_snd_congr h kv)

/-! ## Per-branch computation of the dispatch switch -/

theorem processEntry_key_id {p : Activity × List (String × Json)}
    {kv : String × Json} (hk : stringToLower kv.1 = "id")
    (hnull : kv.2.isNull = false) :
    processEntry p kv = ({ p.1 with ID := payloadString kv.2 }, p.2) := by
  simp only [processEntry, hnull, Bool.false_eq_true, if_false]
  rw [hk]
  rw [if_pos rfl]

theorem processEntry_key_actor {p : Activity × List (String × Json)}
    {kv : String × Json} (hk : stringToLower kv.1 = "actor")
    (hnull : kv.2.isNull = false) :
    processEntry p kv = ({ p.1 with Actor := payloadString kv.2 }, p.2) := by
  simp only [processEntry, hnull, Bool.false_eq_true, if_false]
  rw [hk]
  rw [if_neg (by decide)]
  rw [if_pos rfl]

theorem processEntry_key_verb {p : Activity × List (String × Json)}
    {kv : String × Json} (hk : stringToLower kv.1 = "verb")
    (hnull : kv.2.isNull = false) :
    processEntry p kv = ({ p.1 with Verb := payloadString kv.2 }, p.2) := by
  simp only [processEntry, hnull, Bool.false_eq_true, if_false]
  rw [hk]
  rw [if_neg (by decide)]
  rw [if_neg (by decide)]
  rw [if_pos rfl]

theorem processEntry_key_foreignid {p : Activity × List (String × Json)}
    {kv : String × Json} (hk : stringToLower kv.1 = "foreign_id")
    (hnull : kv.2.isNull = false) :
    processEntry p kv = ({ p.1 with ForeignID := payloadString kv.2 }, p.2) := by
  simp only [processEntry, hnull, Bool.false_eq_true, if_false]
  rw [hk]
  rw [if_neg (by decide)]
  rw [if_neg (by decide)]
  rw [if_neg (by decide)]
  rw [if_pos rfl]

theorem processEntry_key_object {p : Activity × List (String × Json)}
    {kv : String × Json} (hk : stringToLower kv.1 = "object")
    (hnull : kv.2.isNull = false) :
    processEntry p kv = ({ p.1 with Object := payloadString kv.2 }, p.2) := by
  simp only [processEntry, hnull, Bool.false_eq_true, if_false]
  rw [hk]
  rw [if_neg (by decide)]
  rw [if_neg (by decide)]
  rw [if_neg (by decide)]
  rw [if_neg (by decide)]
  rw [if_pos rfl]

theorem processEntry_key_origin {p : Activity × List (String × Json)}
    {kv : String × Json} (hk : stringToLower kv.1 = "origin")
    (hnull : kv.2.isNull = false) :
    processEntry p kv = ({ p.1 with Origin := ⟨payloadString kv.2⟩ }, p.2) := by
  simp only [processEntry, hnull, Bool.false_eq_true, if_false]
  rw [hk]
  rw [if_neg (by decide)]
  rw [if_neg (by decide)]
  rw [if_neg (by decide)]
  rw [if_neg (by decide)]
  rw [if_neg (by decide)]
  rw [if_pos rfl]

theorem processEntry_key_target {p : Activity × List (String × Json)}
    {kv : String × Json} (hk : stringToLower kv.1 = "target")
    (hnull : kv.2.isNull = false) :
    processEntry p kv = ({ p.1 with Target := payloadString kv.2 }, p.2) := by
  simp only [processEntry, hnull, Bool.false_eq_true, if_false]
  rw [hk]
  rw [if_neg (by decide)]
  rw [if_neg (by decide)]
  rw [if_neg (by decide)]
  rw [if_neg (by decide)]
  rw [if_neg (by decide)]
  rw [if_neg (by decide)]
  rw [if_pos rfl]

theorem processEntry_key_time {p : Activity × List (String × Json)}
    {kv : String × Json} (hk : stringToLower kv.1 = "time")
    (hnull : kv.2.isNull = false) :
    processEntry p kv = ({ p.1 with TimeStamp := payloadTimeStamp kv.2 }, p.2) := by
  simp only [processEntry, hnull, Bool.false_eq_true, if_false]
  rw [hk]
  rw [if_neg (by decide)]
  rw [if_neg (by decide)]
  rw [if_neg (by decide)]
  rw [if_neg (by decide)]
  rw [if_neg (by decide)]
  rw [if_neg (by decide)]
  rw [if_neg (by decide)]
  rw [if_pos rfl]

theorem processEntry_key_data {p : Activity × List (String × Json)}
    {kv : String × Json} (hk : stringToLower kv.1 = "data")
    (hnull : kv.2.isNull = false) :
    processEntry p kv = ({ p.1 with Data := some kv.2 }, p.2) := by
  simp only [processEntry, hnull, Bool.false_eq_true, if_false]
  rw [hk]
  rw [if_neg (by decide)]
  rw [if_neg (by decide)]
  rw [if_neg (by decide)]
  rw [if_neg (by decide)]
  rw [if_neg (by decide)]
  rw [if_neg (by decide)]
  rw [if_neg (by decide)]
  rw [if_neg (by decide)]
  rw [if_pos rfl]

theorem processEntry_key_to {p : Activity × List (String × Json)}
    {kv : String × Json} (hk : stringToLower kv.1 = "to")
    (hnull : kv.2.isNull = false) :
    processEntry p kv = ({ p.1 with To := payloadTo kv.2 }, p.2) := by
  simp only [processEntry, hnull, Bool.false_eq_true, if_false]
  rw [hk]
  rw [if_neg (by decide)]
  rw [if_neg (by decide)]
  rw [if_neg (by decide)]
  rw [if_neg (by decide)]
  rw [if_neg (by decide)]
  rw [if_neg (by decide)]
  rw [if_neg (by decide)]
  rw [if_neg (by decide)]
  rw [if_neg (by decide)]
  rw [if_pos rfl]

theorem processEntry_TimeStamp_other {p : Activity × List (String × Json)}
    {kv : String × Json} (hk : stringToLower kv.1 ≠ "time") :
    (processEntry p kv).1.TimeStamp = p.1.TimeStamp := by
  by_cases hnull : kv.2.isNull = true
  · rw [processEntry_null hnull]
  · rw [Bool.not_eq_true] at hnull
    by_cases hid : stringToLower kv.1 = "id"
    · rw [processEntry_key_id hid hnull]
    by_cases hactor : stringToLower kv.1 = "actor"
    · rw [processEntry_key_actor hactor hnull]
    by_cases hverb : stringToLower kv.1 = "verb"
    · rw [processEntry_key_verb hverb hnull]
    by_cases hforeignid : stringToLower kv.1 = "foreign_id"
    · rw [processEntry_key_foreignid hforeignid hnull]
    by_cases hobject : stringToLower kv.1 = "object"
    · rw [processEntry_key_object hobject hnull]
    by_cases horigin : stringToLower kv.1 = "origin"
    · rw [processEntry_key_origin horigin hnull]
    by_cases htarget : stringToLower kv.1 = "target"
    · rw [processEntry_key_target htarget hnull]
    by_cases hdata : stringToLower kv.1 = "data"
    · rw [processEntry_key_data hdata hnull]
    by_cases hto : stringToLower kv.1 = "to"
    · rw [processEntry_key_to hto hnull]
    have hunrec : recognizedKey (stringToLower kv.1) = false := by
      simp only [recognizedKey, Bool.or_eq_false_iff, beq_eq_false_iff_ne]
      exact ⟨⟨⟨⟨⟨⟨⟨⟨⟨hid, hactor⟩, hverb⟩, hforeignid⟩, hobject⟩, horigin⟩,
        htarget⟩, hk⟩, hdata⟩, hto⟩
    rw [processEntry_unrecognized hnull hunrec]

/-! ## Further decoder facts -/

theorem unmarshal_obj (a : Activity) (l : List (String × Json)) :
    Activity.UnmarshalJSON a (Json.obj l) =
      Except.ok { (l.foldl processEntry (a, [])).1 with
        MetaData := some (l.foldl processEntry (a, [])).2 } := rfl

theorem foldl_md_recognized (l : List (String × Json)) :
    ∀ (p0 : Activity × List (String × Json)),
      (∀ kv ∈ l, recognizedKey (stringToLower kv.1) = true) →
      (l.foldl processEntry p0).2 = p0.2 := by
  induction l with
  | nil => exact fun p0 _ => rfl
  | cons kv rest ih =>
    intro p0 h
    simp only [List.foldl_cons]
    rw [ih (processEntry p0 kv) (fun q hq => h q (by simp [hq]))]
    rcases processEntry_md_cases p0 kv with hc | ⟨-, hunrec, -⟩
    · exact hc
    · rw [h kv (by simp)] at hunrec
      exact absurd hunrec (by simp)

theorem payloadTimeStamp_not_str {v : Json} (h : ∀ s, v ≠ Json.str s) :
    payloadTimeStamp v = none := by
  cases v <;> first | rfl | exact absurd rfl (h _)

theorem foldl_TimeStamp_none (l : List (String × Json)) :
    ∀ (p0 : Activity × List (String × Json)), p0.1.TimeStamp = none →
      (∀ kv ∈ l, stringToLower kv.1 = "time" →
        payloadTimeStamp kv.2 = none) →
      (l.foldl processEntry p0).1.TimeStamp = none := by
  induction l with
  | nil => exact fun p0 h0 _ => h0
  | cons kv rest ih =>
    intro p0 h0 ht
    simp only [List.foldl_cons]
    apply ih
    · by_cases hk : stringToLower kv.1 = "time"
      · by_cases hnull : kv.2.isNull = true
        · rw [processEntry_null hnull]
          exact h0
        · rw [Bool.not_eq_true] at hnull
          rw [processEntry_key_time hk hnull]
          exact ht kv (by simp) hk
      · rw [processEntry_TimeStamp_other hk]
        exact h0
    · exact fun q hq hqt => ht q (by simp [hq]) hqt

/-! ## `payloadTo` on an encoded `to` list -/

theorem to1D_strings (strs : List String) :
    to1D (Json.arr (strs.map Json.str)) = strs := by
  rw [to1D]
  have hall : (strs.map Json.str).all isStrOrNull = true := by
    rw [List.all_eq_true]
    intro x hx
    rcases List.mem_map.mp hx with ⟨s, -, rfl⟩
    rfl
  rw [if_pos hall, List.map_map]
  have : (jsonElemStr ∘ Json.str) = id := rfl
  rw [this, List.map_id]

theorem payloadTo_fold_feeds (fs : List GeneralFeed)
    (h : ∀ f ∈ fs, wfFeed f = true) :
    ∀ acc : List GeneralFeed,
      ((fs.map feedToString).foldl
        (fun feed toStr =>
          let feed :=
            match matchFeed toStr with
            | some m1 => feed ++ [m1]
            | none => feed
          match matchFeedWithToken toStr with
          | some m2 => feed ++ [m2]
          | none => feed)
        acc) = acc ++ fs := by
  induction fs with
  | nil => simp
  | cons f rest ih =>
    intro acc
    simp only [List.map_cons, List.foldl_cons]
    have hstep :
        (let feed :=
          match matchFeed (feedToString f) with
          | some m1 => acc ++ [m1]
          | none => acc
        match matchFeedWithToken (feedToString f) with
        | some m2 => feed ++ [m2]
        | none => feed) = acc ++ [f] := by
      by_cases htok : f.token = ""
      · obtain ⟨hm1, hm2⟩ := matchFeed_roundtrip (h f (by simp)) htok
        rw [hm1, hm2]
      · obtain ⟨hm2, hm1⟩ := matchFeedWithToken_roundtrip (h f (by simp)) htok
        rw [hm1, hm2]
    rw [hstep, ih (fun g hg => h g (by simp [hg])) (acc ++ [f])]
    simp

theorem payloadTo_marshal (fs : List GeneralFeed)
    (h : ∀ f ∈ fs, wfFeed f = true) :
    payloadTo (Json.arr ((fs.map feedToString).map Json.str)) = fs := by
  rw [payloadTo, to1D_strings]
  have := payloadTo_fold_feeds fs h []
  simpa using this

/-! ## Lookup through the encoder chain -/

theorem lookup_ite_insert_ne (c : Prop) [Decidable c]
    {m : List (String × Json)} {k : String} {v : Json} {k2 : String}
    (h : (k == k2) = false) :
    mapLookup (if c then mapInsert m k v else m) k2 = mapLookup m k2 := by
  split
  · exact mapLookup_mapInsert_ne v h
  · rfl

theorem lookup_ite_insert_ne2 (c : Prop) [Decidable c]
    {m : List (String × Json)} {k : String} {v : Json} {k2 : String}
    (h : (k == k2) = false) :
    mapLookup (if c then m else mapInsert m k v) k2 = mapLookup m k2 := by
  split
  · rfl
  · exact mapLookup_mapInsert_ne v h

theorem lookup_data_ne (o : Option Json) {m : List (String × Json)}
    {k2 : String} (h : (("data" : String) == k2) = false) :
    mapLookup (match o with
      | some d => mapInsert m "data" d
      | none => m) k2 = mapLookup m k2 := by
  cases o
  · rfl
  · exact mapLookup_mapInsert_ne _ h

theorem lookup_time_ne (o : Option GoTime) (now : GoTime)
    {m : List (String × Json)} {k2 : String}
    (h : (("time" : String) == k2) = false) :
    mapLookup (match o with
      | none => mapInsert m "time" (Json.str (formatGoTime now))
      | some t => mapInsert m "time" (Json.str (formatGoTime t))) k2 =
      mapLookup m k2 := by
  cases o
  · exact mapLookup_mapInsert_ne _ h
  · exact mapLookup_mapInsert_ne _ h

theorem lookup_ite_insert_self (c : Prop) [Decidable c]
    (m : List (String × Json)) (k : String) (v : Json) :
    mapLookup (if c then mapInsert m k v else m) k =
      if c then some v else mapLookup m k := by
  split
  · exact mapLookup_mapInsert_self m k v
  · rfl

theorem foldl_mapInsert_lookup_ne (l : List (String × Json)) (k : String) :
    ∀ acc : List (String × Json),
      (∀ q ∈ l, (q.1 == k) = false) →
      mapLookup (l.foldl (fun m kv => mapInsert m kv.1 kv.2) acc) k =
        mapLookup acc k := by
  induction l with
  | nil => exact fun acc _ => rfl
  | cons kv rest ih =>
    intro acc h
    simp only [List.foldl_cons]
    rw [ih _ (fun q hq => h q (by simp [hq])),
      mapLookup_mapInsert_ne kv.2 (h kv (by simp))]

/-! # Claim theorems -/

/-- C7 (counterexample): as universally stated the claim fails — when the
metadata map itself holds a key `"id"`, the encoder copies it into the
payload even though the `ID` field is empty, so the emitted object contains
the key `id` while `ID = ""`. -/
theorem C7_counterexample :
    (mapLookup (Activity.MarshalJSON
        { emptyActivity with MetaData := some [("id", Json.str "sneak")] }
        ⟨2020, 1, 1, 0, 0, 0, 0⟩) "id").isSome = true ∧
      ({ emptyActivity with
          MetaData := some [("id", Json.str "sneak")] } : Activity).ID = "" :=
  ⟨rfl, rfl⟩

/-- C7 (amended): for every Activity whose metadata holds none of the keys
`id`, `target`, `foreign_id`, the encoded object contains the key `id`
(resp. `target`, `foreign_id`) iff the corresponding field is non-empty,
and none of those keys is ever emitted with a `null` value. -/
theorem C7_marshal_optional_keys (a : Activity) (now : GoTime)
    (h : ∀ q ∈ a.MetaData.getD [], (q.1 == "id") = false ∧
      (q.1 == "target") = false ∧ (q.1 == "foreign_id") = false) :
    ((mapLookup (Activity.MarshalJSON a now) "id").isSome = true ↔
      a.ID ≠ "") ∧
    ((mapLookup (Activity.MarshalJSON a now) "target").isSome = true ↔
      a.Target ≠ "") ∧
    ((mapLookup (Activity.MarshalJSON a now) "foreign_id").isSome = true ↔
      a.ForeignID ≠ "") ∧
    mapLookup (Activity.MarshalJSON a now) "id" ≠ some Json.null ∧
    mapLookup (Activity.MarshalJSON a now) "target" ≠ some Json.null ∧
    mapLookup (Activity.MarshalJSON a now) "foreign_id" ≠ some Json.null := by
  have hid : ∀ q ∈ a.MetaData.getD [], (q.1 == "id") = false :=
    fun q hq => (h q hq).1
  have htg : ∀ q ∈ a.MetaData.getD [], (q.1 == "target") = false :=
    fun q hq => (h q hq).2.1
  have hfg : ∀ q ∈ a.MetaData.getD [], (q.1 == "foreign_id") = false :=
    fun q hq => (h q hq).2.2
  have lid : mapLookup (Activity.MarshalJSON a now) "id" =
      if a.ID ≠ "" then some (Json.str a.ID) else none := by
    simp only [Activity.MarshalJSON]
    rw [lookup_ite_insert_ne2 _ (by decide), lookup_time_ne _ _ (by decide),
      lookup_ite_insert_ne _ (by decide), lookup_data_ne _ (by decide),
      lookup_ite_insert_ne _ (by decide), lookup_ite_insert_self,
      mapLookup_mapInsert_ne _ (by decide), mapLookup_mapInsert_ne _ (by decide),
      mapLookup_mapInsert_ne _ (by decide), mapLookup_mapInsert_ne _ (by decide),
      foldl_mapInsert_lookup_ne _ _ _ hid]
    rfl
  have ltg : mapLookup (Activity.MarshalJSON a now) "target" =
      if a.Target ≠ "" then some (Json.str a.Target) else none := by
    simp only [Activity.MarshalJSON]
    rw [lookup_ite_insert_ne2 _ (by decide), lookup_time_ne _ _ (by decide),
      lookup_ite_insert_ne _ (by decide), lookup_data_ne _ (by decide),
      lookup_ite_insert_self, lookup_ite_insert_ne _ (by decide),
      mapLookup_mapInsert_ne _ (by decide), mapLookup_mapInsert_ne _ (by decide),
      mapLookup_mapInsert_ne _ (by decide), mapLookup_mapInsert_ne _ (by decide),
      foldl_mapInsert_lookup_ne _ _ _ htg]
    rfl
  have lfg : mapLookup (Activity.MarshalJSON a now) "foreign_id" =
      if a.ForeignID ≠ "" then some (Json.str a.ForeignID) else none := by
    simp only [Activity.MarshalJSON]
    rw [lookup_ite_insert_ne2 _ (by decide), lookup_time_ne _ _ (by decide),
      lookup_ite_insert_self, lookup_data_ne _ (by decide),
      lookup_ite_insert_ne _ (by decide), lookup_ite_insert_ne _ (by decide),
      mapLookup_mapInsert_ne _ (by decide), mapLookup_mapInsert_ne _ (by decide),
      mapLookup_mapInsert_ne _ (by decide), mapLookup_mapInsert_ne _ (by decide),
      foldl_mapInsert_lookup_ne _ _ _ hfg]
    rfl
  refine ⟨?_, ?_, ?_, ?_, ?_, ?_⟩
  · rw [lid]
    by_cases hc : a.ID = "" <;> simp [hc]
  · rw [ltg]
    by_cases hc : a.Target = "" <;> simp [hc]
  · rw [lfg]
    by_cases hc : a.ForeignID = "" <;> simp [hc]
  · rw [lid]
    by_cases hc : a.ID = "" <;> simp [hc]
  · rw [ltg]
    by_cases hc : a.Target = "" <;> simp [hc]
  · rw [lfg]
    by_cases hc : a.ForeignID = "" <;> simp [hc]

/-- Concrete Activity used to witness C7. -/
def c7Activity : Activity :=
  { emptyActivity with ID := "i7", MetaData := some [("x", Json.num 1)] }

/-- C7 (witness): the amended theorem applied to a concrete Activity with a
non-colliding metadata key. -/
theorem C7_witness :
    ((mapLookup (Activity.MarshalJSON c7Activity
        ⟨2020, 1, 1, 0, 0, 0, 0⟩) "id").isSome = true ↔
      c7Activity.ID ≠ "") :=
  (C7_marshal_optional_keys c7Activity ⟨2020, 1, 1, 0, 0, 0, 0⟩ (by decide)).1

/-- C2 (counterexample): decoding the JSON literal `null` succeeds — Go's
`json.Unmarshal` treats a top-level `null` as a no-op on the map and
returns no error — although `null` is not a JSON object, refuting "error
exactly when the input fails to parse as a JSON object". -/
theorem C2_counterexample :
    Activity.UnmarshalJSON emptyActivity Json.null =
      Except.ok { emptyActivity with MetaData := some [] } ∧
      Json.isObj Json.null = false :=
  ⟨rfl, rfl⟩

/-- C2 (amended): decode succeeds exactly when the top-level value is a
JSON object or the JSON literal `null` (which unmarshals as a no-op,
leaving an empty Activity with empty metadata); every object decodes
successfully, so field-level anomalies never surface as errors. -/
theorem C2_decode_total (j : Json) :
    (∃ a, Activity.UnmarshalJSON emptyActivity j = Except.ok a) ↔
      (Json.isObj j = true ∨ j = Json.null) := by
  cases j <;>
    simp [Activity.UnmarshalJSON, unmarshalTopMap, Json.isObj]

/-- C3: after a successful decode of any JSON object, no metadata key
lower-cases to a recognized field name; the mixed-case key `"ACTOR"`
populates `Actor` (not metadata); and every unrecognized non-null entry is
stored in metadata under its original key. -/
theorem C3_metadata_invariant (l : List (String × Json)) (a : Activity)
    (h : Activity.UnmarshalJSON emptyActivity (Json.obj l) = Except.ok a) :
    (∀ q ∈ a.MetaData.getD [],
      recognizedKey (stringToLower q.1) = false) ∧
    (Activity.UnmarshalJSON emptyActivity
        (Json.obj [("ACTOR", Json.str "zed")]) =
      Except.ok { emptyActivity with Actor := "zed", MetaData := some [] }) ∧
    (∀ k v, (k, v) ∈ l → v.isNull = false →
      recognizedKey (stringToLower k) = false →
      ∃ w, (k, w) ∈ a.MetaData.getD []) := by
  rw [unmarshal_obj] at h
  have ha := (Except.ok.inj h).symm
  refine ⟨?_, rfl, ?_⟩
  · intro q hq
    rw [ha] at hq
    simp only [Option.getD_some] at hq
    exact foldl_md_unrec l (emptyActivity, []) (by simp) q hq
  · intro k v hkv hnull hunrec
    rw [ha]
    simp only [Option.getD_some]
    exact foldl_key_present l k v (emptyActivity, []) hkv hnull hunrec

/-- The decode of `{"ACTOR": "zed"}`. -/
def zedActivity : Activity :=
  { emptyActivity with Actor := "zed", MetaData := some [] }

/-- C3 (witness): the invariant theorem applied to the decode of
`{"ACTOR": "zed"}`, instantiating its embedded mixed-case conjunct. -/
theorem C3_witness :
    Activity.UnmarshalJSON emptyActivity
      (Json.obj [("ACTOR", Json.str "zed")]) = Except.ok zedActivity :=
  (C3_metadata_invariant [("ACTOR", Json.str "zed")] zedActivity rfl).2.1

/-- C4 (counterexample): no string matches both patterns, so no single
string ever appends two FeedReferences — `^\w+:\w+$` forbids spaces while
`^\w+:\w+ .*?$` demands one. -/
theorem C4_counterexample :
    ¬ ∃ s : String, (matchFeed s).isSome = true ∧
        (matchFeedWithToken s).isSome = true := by
  rintro ⟨s, h1, h2⟩
  have hx := match_exclusive s
  rw [h1, h2] at hx
  simp at hx

/-- C4 (amended): both pattern attempts are made for each flat `to`
string, but the two patterns are mutually exclusive, so each string
contributes at most one reference to the decoded list. -/
theorem C4_patterns_exclusive :
    (∀ s : String,
      ((matchFeed s).isSome && (matchFeedWithToken s).isSome) = false) ∧
    (∀ j : Json, (payloadTo j).length ≤ (to1D j).length) :=
  ⟨match_exclusive, payloadTo_length_le⟩

/-- C5 (counterexample): on `"user:1 a b"` the with-token matcher returns
token `"a"` — the segment between the first and second space — not the
entire remainder `"a b"` that the claim asserts. -/
theorem C5_counterexample :
    matchFeedWithToken "user:1 a b" =
      some { FeedSlug := "user", UserID := "1", token := "a" } ∧
      ("a" : String) ≠ "a b" :=
  ⟨rfl, by decide⟩

/-- C5 (amended): the with-token matcher succeeds exactly on strings of
shape `word+ ":" word+ " " rest` with `rest` free of newlines (and
possibly empty); slug is the segment before the first colon, userID the
post-colon segment before the first space, and the token is the part of
`rest` up to its first space or colon (not the entire remainder). -/
theorem C5_matchFeedWithToken_spec (toStr : String) (f : GeneralFeed) :
    matchFeedWithToken toStr = some f ↔
      ∃ w1 w2 rest : List Char,
        toStr.toList = w1 ++ ':' :: (w2 ++ ' ' :: rest) ∧ w1 ≠ [] ∧ w2 ≠ [] ∧
        (∀ c ∈ w1, isWordChar c = true) ∧ (∀ c ∈ w2, isWordChar c = true) ∧
        (∀ c ∈ rest, (c == '\n') = false) ∧
        f = ⟨String.mk w1, String.mk w2,
          String.mk ((rest.takeWhile (fun c => !(c == ':'))).takeWhile
            (fun c => !(c == ' ')))⟩ := by
  constructor
  · intro h
    have hsome : (matchFeedWithToken toStr).isSome = true := by
      rw [h]
      rfl
    rw [matchFeedWithToken_isSome] at hsome
    obtain ⟨w1, w2, rest, hdec, h1, h2, hw1, hw2, hrest⟩ :=
      (matchFeedWithTokenRegexL_iff toStr.toList).mp hsome
    refine ⟨w1, w2, rest, hdec, h1, h2, hw1, hw2, hrest, ?_⟩
    have hmk := matchFeedWithToken_mk w1 w2 rest h1 h2 hw1 hw2 hrest
    rw [← mk_toList toStr, hdec, hmk] at h
    exact (Option.some.inj h).symm
  · rintro ⟨w1, w2, rest, hdec, h1, h2, hw1, hw2, hrest, rfl⟩
    rw [← mk_toList toStr, hdec]
    exact matchFeedWithToken_mk w1 w2 rest h1 h2 hw1 hw2 hrest

/-- C6 (counterexample): decoding `{"to": [["user","1"], ["user"]]}`
yields no FeedReference at all — the two-element inner list joins with a
space to `"user 1"`, which matches neither pattern — refuting the claim
that it yields a reference for `"user:1"`. -/
theorem C6_counterexample :
    Activity.UnmarshalJSON emptyActivity
      (Json.obj [("to", Json.arr [Json.arr [Json.str "user", Json.str "1"],
        Json.arr [Json.str "user"]])]) =
      Except.ok { emptyActivity with MetaData := some [] } ∧
    ([] : List GeneralFeed) ≠
      [{ FeedSlug := "user", UserID := "1", token := "" }] :=
  ⟨rfl, by decide⟩

/-- C6 (amended): decoding `{"to": [["user","1"], ["user"]]}` yields an
empty `To` list: inner lists are joined with a space, not a colon, so
`"user 1"` and `"user"` match neither feed pattern. -/
theorem C6_nested_to_yields_none (a : Activity)
    (h : Activity.UnmarshalJSON emptyActivity
      (Json.obj [("to", Json.arr [Json.arr [Json.str "user", Json.str "1"],
        Json.arr [Json.str "user"]])]) = Except.ok a) :
    a.To = [] := by
  have hc : Activity.UnmarshalJSON emptyActivity
      (Json.obj [("to", Json.arr [Json.arr [Json.str "user", Json.str "1"],
        Json.arr [Json.str "user"]])]) =
      Except.ok { emptyActivity with MetaData := some [] } := rfl
  rw [hc] at h
  rw [← Except.ok.inj h]
  rfl

/-- C6 (witness): the amended theorem applied to the computed decode
result. -/
theorem C6_witness :
    ({ emptyActivity with MetaData := some [] } : Activity).To = [] :=
  C6_nested_to_yields_none { emptyActivity with MetaData := some [] } rfl

/-- C8: whenever every `time`-keyed value of a JSON object either is not a
JSON string or is a string the fixed layout cannot parse, decoding
succeeds with the timestamp unset; in particular `{"time":"not-a-date"}`
decodes to an Activity with no timestamp. -/
theorem C8_time_anomalies_unset (l : List (String × Json)) (a : Activity)
    (h : Activity.UnmarshalJSON emptyActivity (Json.obj l) = Except.ok a)
    (ht : ∀ k v, (k, v) ∈ l → stringToLower k = "time" →
      (∀ s, v ≠ Json.str s) ∨ (∃ s, v = Json.str s ∧ parseLayout s = none)) :
    a.TimeStamp = none ∧
    Activity.UnmarshalJSON emptyActivity
        (Json.obj [("time", Json.str "not-a-date")]) =
      Except.ok { emptyActivity with MetaData := some [] } := by
  rw [unmarshal_obj] at h
  have ha := (Except.ok.inj h).symm
  refine ⟨?_, rfl⟩
  rw [ha]
  apply foldl_TimeStamp_none l (emptyActivity, []) rfl
  intro kv hkv hkt
  rcases ht kv.1 kv.2 (by simpa using hkv) hkt with hns | ⟨s, hvs, hps⟩
  · exact payloadTimeStamp_not_str hns
  · rw [hvs]
    exact hps

/-- C8 (witness): applied to `{"time": true}` (a non-string time value). -/
theorem C8_witness :
    ({ emptyActivity with MetaData := some [] } : Activity).TimeStamp =
      none :=
  (C8_time_anomalies_unset [("time", Json.bool true)]
    { emptyActivity with MetaData := some [] } rfl
    (by
      intro k v hkv hkt
      simp only [List.mem_singleton, Prod.mk.injEq] at hkv
      left
      intro s hs
      rw [hkv.2] at hs
      exact Json.noConfusion hs)).1

/-- C9: every successful decode installs a freshly built, non-nil metadata
map: it is present (`isSome`), empty when every key is recognized, and
independent of whatever Activity (and metadata) the receiver held before. -/
theorem C9_metadata_replaced (a0 a2 : Activity) (l : List (String × Json))
    (h : Activity.UnmarshalJSON a0 (Json.obj l) = Except.ok a2) :
    a2.MetaData.isSome = true ∧
    ((∀ kv ∈ l, recognizedKey (stringToLower kv.1) = true) →
      a2.MetaData = some []) ∧
    (∀ b0 b2, Activity.UnmarshalJSON b0 (Json.obj l) = Except.ok b2 →
      b2.MetaData = a2.MetaData) := by
  rw [unmarshal_obj] at h
  have ha := (Except.ok.inj h).symm
  refine ⟨?_, ?_, ?_⟩
  · rw [ha]
    rfl
  · intro hrec
    rw [ha]
    simp only
    rw [foldl_md_recognized l (a0, []) hrec]
  · intro b0 b2 hb
    rw [unmarshal_obj] at hb
    have hbe := (Except.ok.inj hb).symm
    rw [ha, hbe]
    simp only
    rw [foldl_snd_indep l (b0, []) (a0, []) rfl]

/-- C9 (witness): decoding `{"actor":"x"}` into a receiver that already
holds metadata installs the fresh (empty) map. -/
theorem C9_witness :
    ({ emptyActivity with Actor := "x", MetaData := some [] }
      : Activity).MetaData.isSome = true :=
  (C9_metadata_replaced
    { emptyActivity with MetaData := some [("old", Json.num 1)] }
    { emptyActivity with Actor := "x", MetaData := some [] }
    [("actor", Json.str "x")] rfl).1

/-- C10: whenever the with-token regex matches, splitting on `":"` yields
at least two segments and splitting the post-colon segment on `" "` yields
at least two pieces, so the accesses `firstSplit[1]`, `secondSplit[0]` and
`secondSplit[1]` in `matchFeedWithToken` are in bounds. -/
theorem C10_split_accesses_in_bounds (s : String)
    (h : matchFeedWithTokenRegexL s.toList = true) :
    2 ≤ (splitOnChar ':' s.toList).length ∧
    2 ≤ (splitOnChar ' ' ((splitOnChar ':' s.toList).getD 1 [])).length := by
  obtain ⟨w1, w2, rest, hdec, h1, h2, hw1, hw2, hrest⟩ :=
    (matchFeedWithTokenRegexL_iff s.toList).mp h
  have hw1c : ∀ c ∈ w1, (c == ':') = false :=
    fun c hc => (wordChar_ne (hw1 c hc)).1
  have hw2c : ∀ c ∈ w2, (c == ':') = false :=
    fun c hc => (wordChar_ne (hw2 c hc)).1
  constructor
  · apply splitOnChar_length_two
    rw [hdec]
    simp
  · rw [hdec, splitOnChar_append_sep _ hw1c]
    have htw : (w2 ++ ' ' :: rest).takeWhile (fun c => !(c == ':')) =
        w2 ++ ' ' :: rest.takeWhile (fun c => !(c == ':')) := by
      rw [takeWhile_append_all _ (fun c hc => by simp [hw2c c hc])]
      rw [List.takeWhile_cons]
      simp
    simp only [List.getD_cons_succ, splitOnChar_head, htw]
    apply splitOnChar_length_two
    simp

/-- C10 (witness): the bounds at the concrete matching string
`"user:1 tok"`. -/
theorem C10_witness :
    2 ≤ (splitOnChar ':' ("user:1 tok" : String).toList).length ∧
    2 ≤ (splitOnChar ' '
      ((splitOnChar ':' ("user:1 tok" : String).toList).getD 1 [])).length :=
  C10_split_accesses_in_bounds "user:1 tok" (by decide)

/-! ## Normal form of the encoded payload -/

theorem mapInsert_fresh_append {m : List (String × Json)} {k : String}
    {v : Json} (h : m.any (fun q => q.1 == k) = false) :
    mapInsert m k v = m ++ [(k, v)] := by
  rw [mapInsert, if_neg (by simp [h])]

theorem unrec_any_false {l : List (String × Json)}
    (hl : ∀ q ∈ l, recognizedKey (stringToLower q.1) = false)
    {r : String} (hr : recognizedKey r = true) (hlow : stringToLower r = r) :
    l.any (fun q => q.1 == r) = false := by
  rw [List.any_eq_false]
  intro q hq
  intro hb
  have hqr : q.1 = r := beq_iff_eq.mp hb
  have := hl q hq
  rw [hqr, hlow, hr] at this
  exact Bool.true_eq_false.mp this

theorem ite_insert_append (c : Prop) [Decidable c]
    {m : List (String × Json)} {k : String} {v : Json}
    (h : m.any (fun q => q.1 == k) = false) :
    (if c then mapInsert m k v else m) = m ++ (if c then [(k, v)] else []) := by
  split
  · exact mapInsert_fresh_append h
  · simp

/-- The optional `data` entry of the normalized payload. -/
def dataSeg (o : Option Json) : List (String × Json) :=
  match o with
  | some d => [("data", d)]
  | none => []

/-- The instant the encoder formats: the explicit timestamp when set, the
injected clock otherwise. -/
def timeValue (o : Option GoTime) (now : GoTime) : GoTime :=
  match o with
  | some t => t
  | none => now

theorem data_insert_append (o : Option Json) {m : List (String × Json)}
    (h : m.any (fun q => q.1 == "data") = false) :
    (match o with
      | some d => mapInsert m "data" d
      | none => m) =
      m ++ dataSeg o := by
  cases o
  · simp [dataSeg]
  · exact mapInsert_fresh_append h

theorem time_insert_append (o : Option GoTime) (now : GoTime)
    {m : List (String × Json)}
    (h : m.any (fun q => q.1 == "time") = false) :
    (match o with
      | none => mapInsert m "time" (Json.str (formatGoTime now))
      | some t => mapInsert m "time" (Json.str (formatGoTime t))) =
      m ++ [("time", Json.str (formatGoTime (timeValue o now)))] := by
  cases o
  · exact mapInsert_fresh_append h
  · exact mapInsert_fresh_append h

theorem to_insert_append (c : Prop) [Decidable c]
    {m : List (String × Json)} {k : String} {v : Json}
    (h : m.any (fun q => q.1 == k) = false) :
    (if c then m else mapInsert m k v) = m ++ (if c then [] else [(k, v)]) := by
  split
  · simp
  · exact mapInsert_fresh_append h

theorem seg_ite_any (c : Prop) [Decidable c] (k0 : String) (v0 : Json)
    {k : String} (h : (k0 == k) = false) :
    (if c then [(k0, v0)] else []).any (fun q => q.1 == k) = false := by
  split <;> simp [h]

theorem seg_data_any (o : Option Json) {k : String}
    (h : (("data" : String) == k) = false) :
    (dataSeg o).any (fun q => q.1 == k) = false := by
  cases o <;> simp [dataSeg, h]

/-- The encoded payload, under the metadata hypotheses, is the metadata
entries followed by the recognized entries in insertion order, with the
optional entries present iff their fields are set. -/
theorem marshal_normal (a : Activity) (now : GoTime)
    (hmd : ∀ q ∈ a.MetaData.getD [], recognizedKey (stringToLower q.1) = false)
    (hnodup : ((a.MetaData.getD []).map Prod.fst).Nodup) :
    Activity.MarshalJSON a now =
      a.MetaData.getD [] ++
      ([("actor", Json.str a.Actor)] ++
      ([("verb", Json.str a.Verb)] ++
      ([("object", Json.str a.Object)] ++
      ([("origin", Json.str a.Origin.Value)] ++
      ((if a.ID ≠ "" then [("id", Json.str a.ID)] else []) ++
      ((if a.Target ≠ "" then [("target", Json.str a.Target)] else []) ++
      (dataSeg a.Data ++
      ((if a.ForeignID ≠ "" then [("foreign_id", Json.str a.ForeignID)]
        else []) ++
      ([("time", Json.str (formatGoTime (timeValue a.TimeStamp now)))] ++
      (if (a.To.map feedToString).isEmpty then []
       else [("to",
         Json.arr ((a.To.map feedToString).map Json.str))])))))))))) := by
  have hany : ∀ r : String, recognizedKey r = true → stringToLower r = r →
      (a.MetaData.getD []).any (fun q => q.1 == r) = false :=
    fun r h1 h2 => unrec_any_false hmd h1 h2
  simp only [Activity.MarshalJSON]
  rw [foldl_mapInsert_fresh _ [] (by simp) hnodup, List.nil_append]
  rw [mapInsert_fresh_append (hany "actor" (by decide) (by decide))]
  rw [mapInsert_fresh_append (k := "verb")
    (by simp [List.any_append, hany "verb" (by decide) (by decide)])]
  rw [mapInsert_fresh_append (k := "object")
    (by simp [List.any_append, hany "object" (by decide) (by decide)])]
  rw [mapInsert_fresh_append (k := "origin")
    (by simp [List.any_append, hany "origin" (by decide) (by decide)])]
  rw [ite_insert_append (a.ID ≠ "") (k := "id")
    (by simp [List.any_append, hany "id" (by decide) (by decide)])]
  rw [ite_insert_append (a.Target ≠ "") (k := "target")
    (by simp [List.any_append, hany "target" (by decide) (by decide),
      seg_ite_any])]
  rw [data_insert_append a.Data
    (by simp [List.any_append, hany "data" (by decide) (by decide),
      seg_ite_any])]
  rw [ite_insert_append (a.ForeignID ≠ "") (k := "foreign_id")
    (by simp [List.any_append, hany "foreign_id" (by decide) (by decide),
      seg_ite_any, seg_data_any])]
  rw [time_insert_append a.TimeStamp now
    (by simp [List.any_append, hany "time" (by decide) (by decide),
      seg_ite_any, seg_data_any])]
  rw [to_insert_append ((a.To.map feedToString).isEmpty) (k := "to")
    (by simp [List.any_append, hany "to" (by decide) (by decide),
      seg_ite_any, seg_data_any])]
  simp [List.append_assoc]



/-! ## Decoding the payload segments -/

theorem foldl_opt_id (c : Prop) [Decidable c] (v : String)
    (p : Activity × List (String × Json)) :
    List.foldl processEntry p (if c then [("id", Json.str v)] else []) =
      ({ p.1 with ID := if c then v else p.1.ID }, p.2) := by
  split <;> rfl

theorem foldl_opt_target (c : Prop) [Decidable c] (v : String)
    (p : Activity × List (String × Json)) :
    List.foldl processEntry p (if c then [("target", Json.str v)] else []) =
      ({ p.1 with Target := if c then v else p.1.Target }, p.2) := by
  split <;> rfl

theorem foldl_opt_foreign (c : Prop) [Decidable c] (v : String)
    (p : Activity × List (String × Json)) :
    List.foldl processEntry p
      (if c then [("foreign_id", Json.str v)] else []) =
      ({ p.1 with ForeignID := if c then v else p.1.ForeignID }, p.2) := by
  split <;> rfl

theorem foldl_opt_data (o : Option Json) (hne : o ≠ some Json.null)
    (p : Activity × List (String × Json)) (hD : p.1.Data = none) :
    List.foldl processEntry p (dataSeg o) = ({ p.1 with Data := o }, p.2) := by
  cases o with
  | none =>
    simp only [dataSeg, List.foldl_nil]
    rw [← hD]
  | some d =>
    simp only [dataSeg, List.foldl_cons, List.foldl_nil]
    have hd : d.isNull = false := by
      cases d <;> first | rfl | exact absurd rfl hne
    rw [@processEntry_key_data p ("data", d) rfl hd]

theorem foldl_time_seg (t2 : GoTime) (hv : validWireTime t2 = true)
    (p : Activity × List (String × Json)) :
    List.foldl processEntry p
      [("time", Json.str (formatGoTime t2))] =
      ({ p.1 with TimeStamp := some t2 }, p.2) := by
  have hp : payloadTimeStamp (Json.str (formatGoTime t2)) = some t2 := by
    have h1 : (formatGoTime t2).toList = formatChars t2 := rfl
    simp only [payloadTimeStamp, parseLayout, h1]
    exact parseLayoutChars_format hv
  show ({ p.1 with
    TimeStamp := payloadTimeStamp (Json.str (formatGoTime t2)) }, p.2) = _
  rw [hp]

theorem foldl_opt_to (fs : List GeneralFeed)
    (hwf : ∀ f ∈ fs, wfFeed f = true)
    (p : Activity × List (String × Json)) (hTo : p.1.To = []) :
    List.foldl processEntry p
      (if (fs.map feedToString).isEmpty then []
       else [("to", Json.arr ((fs.map feedToString).map Json.str))]) =
      ({ p.1 with To := fs }, p.2) := by
  split
  case isTrue h =>
    cases fs with
    | nil =>
      simp only [List.foldl_nil]
      rw [← hTo]
    | cons f rest => simp at h
  case isFalse h =>
    show ({ p.1 with
      To := payloadTo (Json.arr ((fs.map feedToString).map Json.str)) },
      p.2) = _
    rw [payloadTo_marshal fs hwf]

theorem foldl_actor_seg (v : String) (p : Activity × List (String × Json)) :
    List.foldl processEntry p [("actor", Json.str v)] =
      ({ p.1 with Actor := v }, p.2) := rfl

theorem foldl_verb_seg (v : String) (p : Activity × List (String × Json)) :
    List.foldl processEntry p [("verb", Json.str v)] =
      ({ p.1 with Verb := v }, p.2) := rfl

theorem foldl_object_seg (v : String) (p : Activity × List (String × Json)) :
    List.foldl processEntry p [("object", Json.str v)] =
      ({ p.1 with Object := v }, p.2) := rfl

theorem foldl_origin_seg (v : String) (p : Activity × List (String × Json)) :
    List.foldl processEntry p [("origin", Json.str v)] =
      ({ p.1 with Origin := ⟨v⟩ }, p.2) := rfl

/-- C1 (amended): encode-then-decode is the identity on every Activity
whose timestamp is set, valid and at microsecond resolution, whose
metadata map is non-nil with unique keys, no key lower-casing to a
recognized name and no `null` value, whose data payload is not the JSON
literal `null`, and whose destination feeds are well-formed for the wire
grammar (word-character slug and user ID, token free of space, colon and
newline).  Each hypothesis is forced by a real divergence: feeds whose
rendering the patterns cannot parse are dropped, `null` values are
skipped on decode, colliding metadata keys are consumed by the dispatch,
and sub-microsecond timestamps are truncated by the layout. -/
theorem C1_roundtrip (a : Activity) (now t : GoTime)
    (hts : a.TimeStamp = some t)
    (hvt : validWireTime t = true)
    (hmdsome : a.MetaData.isSome = true)
    (hmdkeys : ∀ q ∈ a.MetaData.getD [],
      recognizedKey (stringToLower q.1) = false ∧ q.2.isNull = false)
    (hnodup : ((a.MetaData.getD []).map Prod.fst).Nodup)
    (hdata : a.Data ≠ some Json.null)
    (hwf : ∀ f ∈ a.To, wfFeed f = true) :
    Activity.UnmarshalJSON emptyActivity
      (Json.obj (Activity.MarshalJSON a now)) = Except.ok a := by
  obtain ⟨aID, aAct, aVb, aObj, aTg, aOr, aTs, aFg, aDa, aMd, aTo⟩ := a
  obtain ⟨oval⟩ := aOr
  dsimp only at hts hmdsome hmdkeys hnodup hdata hwf
  subst hts
  obtain ⟨l, hl⟩ := Option.isSome_iff_exists.mp hmdsome
  subst hl
  simp only [Option.getD_some] at hmdkeys hnodup
  rw [marshal_normal _ now (by intro q hq; exact (hmdkeys q hq).1)
    (by exact hnodup)]
  rw [unmarshal_obj]
  simp only [Option.getD_some, List.foldl_append]
  rw [foldl_processEntry_unrec l emptyActivity [] hmdkeys,
    foldl_mapInsert_fresh l [] (by simp) hnodup, List.nil_append]
  rw [foldl_actor_seg, foldl_verb_seg, foldl_object_seg, foldl_origin_seg]
  have htv : timeValue (some t) now = t := rfl
  rw [foldl_opt_id, foldl_opt_target, foldl_opt_data aDa hdata _ rfl,
    foldl_opt_foreign, htv, foldl_time_seg t hvt, foldl_opt_to aTo hwf _ rfl]
  by_cases hID : aID = "" <;> by_cases hTg : aTg = "" <;>
    by_cases hFg : aFg = "" <;>
    simp [hID, hTg, hFg, emptyActivity, FeedID.Value]

/-- An Activity whose destination feed slug contains a space: its wire
rendering `"a b:c"` matches neither feed pattern. -/
def c1BadActivity : Activity :=
  { ID := "", Actor := "", Verb := "", Object := "", Target := ""
    Origin := ⟨""⟩, TimeStamp := some ⟨2021, 2, 3, 4, 5, 6, 0⟩
    ForeignID := "", Data := none, MetaData := none
    To := [⟨"a b", "c", ""⟩] }

/-- C1 (counterexample): the claim fails as universally stated — an
Activity with a set timestamp whose feed slug contains a space loses its
`to` entry on decode(encode(·)), because the rendered string matches
neither anchored pattern. -/
theorem C1_counterexample :
    Except.map (fun r => r.To)
      (Activity.UnmarshalJSON emptyActivity
        (Json.obj (Activity.MarshalJSON c1BadActivity
          ⟨2021, 2, 3, 4, 5, 6, 0⟩))) = Except.ok [] ∧
      c1BadActivity.To ≠ [] :=
  ⟨rfl, by decide⟩

/-- A fully populated well-formed Activity used to witness C1. -/
def c1GoodActivity : Activity :=
  { ID := "id1", Actor := "alice", Verb := "post", Object := "obj1"
    Target := "tgt", Origin := ⟨"orig:1"⟩
    TimeStamp := some ⟨2021, 2, 3, 4, 5, 6, 7000⟩, ForeignID := "f1"
    Data := some (Json.num 5), MetaData := some [("extra", Json.str "x")]
    To := [⟨"user", "1", ""⟩, ⟨"user", "2", "tok"⟩] }

/-- C1 (witness): the amended round trip at a fully populated concrete
Activity. -/
theorem C1_witness :
    Activity.UnmarshalJSON emptyActivity
      (Json.obj (Activity.MarshalJSON c1GoodActivity
        ⟨2020, 1, 1, 0, 0, 0, 0⟩)) = Except.ok c1GoodActivity :=
  C1_roundtrip c1GoodActivity ⟨2020, 1, 1, 0, 0, 0, 0⟩
    ⟨2021, 2, 3, 4, 5, 6, 7000⟩ rfl (by decide) rfl (by decide) (by decide)
    (fun h => Json.noConfusion (Option.some.inj h)) (by decide)
